import Mathlib

/-!
Verification development for the error formatter in
`src/lib/common/Formatter.ts`: stack-trace normalization across two
trace dialects, structural-diff rendering, and message composition.

Strings are modelled at the level of their character lists (`String` in
Lean 4.14 is a structure over `List Char`).  JavaScript semantics that
matter here are reproduced explicitly: `||` defaulting treats the empty
string as missing, `x != null` tests only presence, `String(undefined)`
is `"undefined"`, and `typeof null` is `"object"`.  The external
collaborators (the `toJSON` serializer, the diff library's
`createPatch`, JS string coercion of a non-error value, and the
source-location resolver) are passed as function parameters, as the
specification describes them.
-/

/-! ## Line and character helpers -/

/-- Split a character list at newline characters, matching JS `split('\n')`. -/
def splitNl (cs : List Char) : List (List Char) := cs.splitOn '\n'

/-- Join lines with newline characters, matching JS `join('\n')`. -/
def joinNl (L : List (List Char)) : List Char := List.intercalate ['\n'] L

/-- JS `\s` whitespace test (approximated by Lean's whitespace set). -/
def isWsChar (c : Char) : Bool := c.isWhitespace

/-- JS `str.replace(/\s+$/, '')`: drop trailing whitespace. -/
def dropTrailingWs (cs : List Char) : List Char := (cs.reverse.dropWhile isWsChar).reverse

/-- JS `/^\s*$/.test(line)`: the line is empty or all whitespace. -/
def isBlankLine (l : List Char) : Bool := l.all isWsChar

/-- JS `\w` word-character test: ASCII letters, digits, underscore. -/
def isWordChar (c : Char) : Bool := c.isAlphanum || c = '_'

/-- JS truthiness of an optional string field: absent and `""` are falsy. -/
def truthyS : Option String → Bool
  | none => false
  | some s => !(s == "")

/-- JS `x || d` for an optional string `x`: the default replaces both a
missing and an empty string. -/
def orDefault (o : Option String) (d : String) : String :=
  match o with
  | none => d
  | some s => if s == "" then d else s

/-! ## The error-name header test

`/^(?:[A-Z]\w+)?Error: /` matches a line that starts with `"Error: "`,
or starts with an ASCII capital followed by at least one word character
and then `"Error: "`. -/

/-- After the leading capital, consume one or more word characters and
then require the literal `"Error: "`. -/
def errHeaderAfterUpper : List Char → Bool
  | [] => false
  | c :: cs => isWordChar c && ("Error: ".data.isPrefixOf cs || errHeaderAfterUpper cs)

/-- Embeds the test `/^(?:[A-Z]\w+)?Error: /.test(line)` from
`normalizeStackTrace`. -/
def matchesErrorHeader (l : List Char) : Bool :=
  "Error: ".data.isPrefixOf l ||
    (match l with
     | c :: cs => ('A' ≤ c && c ≤ 'Z') && errHeaderAfterUpper cs
     | [] => false)

/-! ## Trace-line formatter -/

/-- Embeds `formatLine` from `Formatter.ts`: render one parsed frame.
JS `!data.func` is falsy for a missing and for an empty function name. -/
def formatLine (func : Option String) (source : String) (getSource : String → String) : String :=
  if truthyS func then "  at " ++ func.getD "" ++ "  <" ++ getSource source ++ ">"
  else "  at <" ++ getSource source ++ ">"

/-! ## Chrome/Opera/IE dialect

`/^\s*at (.+?) \(([^)]+)\)$/` with a lazy function-name group: the
shortest nonempty prefix is taken such that the remainder has the shape
`" (" ++ source ++ ")"` with a nonempty `source` free of `')'` and the
closing paren ending the line. -/

/-- The tail after `" ("` must be `source ++ ")"` with `source` nonempty
and free of `')'`. -/
def chromeSrcOk (t : List Char) : Bool :=
  match t.reverse with
  | ')' :: rest => !rest.isEmpty && rest.all (fun c => !(c == ')'))
  | _ => false

/-- Lazy scan for the `" ("` separator, mirroring the regex engine's
shortest-first search for the lazy group. -/
def chromeLazy : List Char → List Char → Option (List Char × List Char)
  | _, [] => none
  | acc, c :: rest =>
    if c == ' ' && ['('].isPrefixOf rest && chromeSrcOk (rest.drop 1) then
      some (acc.reverse, (rest.drop 1).dropLast)
    else chromeLazy (c :: acc) rest

/-- Leading-whitespace-then-`"at "` test shared by both Chrome patterns;
returns the text after `"at "`. -/
def chromeAtBody (line : List Char) : Option (List Char) :=
  let r := line.dropWhile isWsChar
  if "at ".data.isPrefixOf r then some (r.drop 3) else none

/-- Search for `" (source)"` in the body after `"at "`; the lazy
function group must be nonempty, so the scan starts after one character. -/
def chromeParen (body : List Char) : Option (List Char × List Char) :=
  match body with
  | [] => none
  | b :: bs => chromeLazy [b] bs

/-- Embeds the per-line logic of `processChromeTrace`. -/
def processChromeLine (getSource : String → String) (line : List Char) : List Char :=
  match chromeAtBody line with
  | some body =>
    match chromeParen body with
    | some fs => (formatLine (some (String.mk fs.1)) (String.mk fs.2) getSource).data
    | none => (formatLine none (String.mk body) getSource).data
  | none => line

/-- Embeds `processChromeTrace` from `Formatter.ts`. -/
def processChromeTrace (lines : List (List Char)) (getSource : String → String) : List (List Char) :=
  lines.map (processChromeLine getSource)

/-! ## Safari/Firefox dialect -/

/-- `/^([^@]+)@(.*)/`: split at the first `'@'`, requiring a nonempty
part before it. -/
def safariAt (line : List Char) : Option (List Char × List Char) :=
  let pre := line.takeWhile (fun c => !(c == '@'))
  if pre ≠ [] ∧ pre.length < line.length then some (pre, line.drop (pre.length + 1))
  else none

/-- `/^(\w+:\/\/.*)/`: a bare URL-like location; the capture is the
whole line. -/
def safariUrl (line : List Char) : Bool :=
  let w := line.takeWhile isWordChar
  !w.isEmpty && "://".data.isPrefixOf (line.drop w.length)

/-- Embeds the per-line logic of `processSafariTrace`. -/
def processSafariLine (getSource : String → String) (line : List Char) : List Char :=
  match safariAt line with
  | some fs => (formatLine (some (String.mk fs.1)) (String.mk fs.2) getSource).data
  | none =>
    if safariUrl line then (formatLine none (String.mk line) getSource).data
    else line

/-- Embeds `processSafariTrace` from `Formatter.ts`. -/
def processSafariTrace (lines : List (List Char)) (getSource : String → String) : List (List Char) :=
  lines.map (processSafariLine getSource)

/-! ## Noise filtering -/

/-- Substring containment: the pattern occurs at some position. -/
def containsSub (p : List Char) : List Char → Bool
  | [] => p.isPrefixOf ([] : List Char)
  | c :: cs => p.isPrefixOf (c :: cs) || containsSub p cs

/-- `/node_modules\/(?!digdug|leadfoot)/`: some occurrence of
`"node_modules/"` not immediately followed by either allow-listed
dependency name. -/
def hasNodeModulesNoise : List Char → Bool
  | [] => false
  | c :: cs =>
    ("node_modules/".data.isPrefixOf (c :: cs) &&
      !("digdug".data.isPrefixOf ((c :: cs).drop 13)) &&
      !("leadfoot".data.isPrefixOf ((c :: cs).drop 13))) ||
    hasNodeModulesNoise cs

/-- Embeds the noise denylist of `normalizeStackTrace`: runtime
internals, non-allow-listed dependencies, `Module.runMain`, and the
bootstrap frame. -/
def isNoiseLine (l : List Char) : Bool :=
  containsSub "internal/process/".data l || hasNodeModulesNoise l ||
    containsSub "Module.runMain".data l || containsSub "bootstrap_node.js".data l

/-! ## Stack normalizer -/

/-- Trailing-whitespace strip and split of the raw stack text. -/
def rawLines (stack : String) : List (List Char) := splitNl (dropTrailingWs stack.data)

/-- The preserved first line (with its newline) when the stack starts
with a bare error-name header. -/
def headerPart (stack : String) : List Char :=
  if matchesErrorHeader ((rawLines stack).headD []) then (rawLines stack).headD [] ++ ['\n']
  else []

/-- The working lines: the header line dropped when present, then
leading blank lines stripped. -/
def bodyLines (stack : String) : List (List Char) :=
  (if matchesErrorHeader ((rawLines stack).headD []) then (rawLines stack).drop 1
   else rawLines stack).dropWhile isBlankLine

/-- Dialect sniff `/^\s*at /.test(lines[0])`; on an exhausted list the
JS test sees `undefined` and fails, matching `headD []` here. -/
def sniffChrome (lines : List (List Char)) : Bool :=
  "at ".data.isPrefixOf ((lines.headD []).dropWhile isWsChar)

/-- The parsed lines before noise filtering: all lines go through the
dialect chosen by the sniff. -/
def processedLinesOf (stack : String) (getSource : String → String) : List (List Char) :=
  if sniffChrome (bodyLines stack) then processChromeTrace (bodyLines stack) getSource
  else processSafariTrace (bodyLines stack) getSource

/-- Embeds `normalizeStackTrace` from `Formatter.ts`. -/
def normalizeStackTrace (stack : String) (filterStack : Bool) (getSource : String → String) : String :=
  let final :=
    if filterStack then (processedLinesOf stack getSource).filter (fun l => !isNoiseLine l)
    else processedLinesOf stack getSource
  String.mk ('\n' :: (headerPart stack ++ joinNl final))

/-! ## Diff generator -/

/-- `/^@@[^@]*@@$/`: the whole line is `"@@"`, then characters free of
`'@'`, then `"@@"`. -/
def isHunkHeader (l : List Char) : Bool :=
  match l with
  | '@' :: '@' :: rest =>
    decide (2 ≤ rest.length) && (rest.drop (rest.length - 2) == ['@', '@']) &&
      (rest.take (rest.length - 2)).all (fun c => !(c == '@'))
  | _ => false

/-- The per-line action of `diff.replace(/^([+-]?)(.*)$/gm, ...)`: a
line whose content after the optional indicator is exactly `"[...]"` is
returned unchanged; otherwise `'+'` becomes `"E "`, `'-'` becomes
`"A "`, and no indicator becomes `" "`. -/
def recodeLine : List Char → List Char
  | '+' :: r => if r == "[...]".data then r else 'E' :: ' ' :: r
  | '-' :: r => if r == "[...]".data then r else 'A' :: ' ' :: r
  | r => if r == "[...]".data then r else ' ' :: r

/-- JS `array.slice(5, -1)`. -/
def slice5m1 (L : List (List Char)) : List (List Char) := (L.take (L.length - 1)).drop 5

/-- The patch text after the header slice and the hunk-marker
replacement; the `/gm` regex acts line by line, so it is a map over the
split lines. -/
def diffRawMiddle (patchText : String) : List (List Char) :=
  (slice5m1 (splitNl patchText.data)).map (fun l => if isHunkHeader l then "[...]".data else l)

/-! ## JS values and the error record -/

/-- A universe of JavaScript values sufficient for the `typeof` checks
and the externally-serialized diff inputs; objects, arrays and
functions carry an opaque tag. -/
inductive JSVal where
  | vUndefined : JSVal
  | vNull : JSVal
  | vBool : Bool → JSVal
  | vNum : Int → JSVal
  | vStr : String → JSVal
  | vObj : Nat → JSVal
  | vArr : Nat → JSVal
  | vFun : Nat → JSVal
deriving DecidableEq

/-- JS `typeof`; in particular `typeof null` is `"object"` and a
function is `"function"`. -/
def typeof : JSVal → String
  | .vUndefined => "undefined"
  | .vNull => "object"
  | .vBool _ => "boolean"
  | .vNum _ => "number"
  | .vStr _ => "string"
  | .vObj _ => "object"
  | .vArr _ => "object"
  | .vFun _ => "function"

/-- Modelled from the spec: the non-primitive (object-like) JS values
are objects, arrays and functions; `null` and `undefined` are
primitives.  Used only to state spec-side guards. -/
def isNonPrimitive : JSVal → Bool
  | .vObj _ => true
  | .vArr _ => true
  | .vFun _ => true
  | _ => false

/-- Embeds `createDiff` from `Formatter.ts`; `serialize` models the
external `toJSON` and `patch` models the external
`diff.createPatch('', a, b, '', '')`. -/
def createDiff (serialize : JSVal → String) (patch : String → String → String)
    (actual expected : JSVal) : String :=
  let patchText := patch (serialize actual ++ "\n") (serialize expected ++ "\n")
  let diff := joinNl (diffRawMiddle patchText)
  if diff == [] then "" else String.mk (joinNl ((splitNl diff).map recodeLine))

/-- The structured-error record: every field of the dynamic error value
that `format` probes. -/
structure JSError where
  name : Option String := none
  message : Option String := none
  stack : Option String := none
  showDiff : Bool := false
  actual : JSVal := .vUndefined
  expected : JSVal := .vUndefined
  fileName : Option String := none
  lineNumber : Option Int := none
  columnNumber : Option Int := none

/-- The error-like input: a plain string or a structured error. -/
inductive FormatInput where
  | str : String → FormatInput
  | err : JSError → FormatInput

/-- The formatter state: the single noise-filter flag. -/
structure Formatter where
  filterErrorStack : Bool := false

/-- `FormatterOptions = Partial<FormatterProperties>`. -/
structure FormatterOptions where
  filterErrorStack : Option Bool := none

/-- Embeds the constructor `new Formatter(options)`: `mixin` copies a
supplied property over the default. -/
def mkFormatter (options : FormatterOptions) : Formatter :=
  { filterErrorStack := options.filterErrorStack.getD false }

/-- Per-call options of `format`. -/
structure FormatOptions where
  space : Option String := none

/-! ## Message composer -/

/-- The structured-error test `typeof error !== 'string' &&
(error.message || error.stack)`. -/
def isStructured (e : JSError) : Bool := truthyS e.message || truthyS e.stack

/-- `message = (error.name || 'Error') + ': ' + (error.message ||
'Unknown error')`. -/
def composedMessage (e : JSError) : String :=
  orDefault e.name "Error" ++ ": " ++ orDefault e.message "Unknown error"

/-- The string JS searches for in the second deduplication branch:
`stack.indexOf(error.message)` coerces a missing message to
`"undefined"`. -/
def rawMessage (e : JSError) : String := e.message.getD "undefined"

/-- The deduplication step of `format`: strip the composed message when
it prefixes the stack, else strip the raw message when it does. -/
def strippedStack (e : JSError) (s : String) : String :=
  if (composedMessage e).data.isPrefixOf s.data then
    String.mk (s.data.drop (composedMessage e).data.length)
  else if (rawMessage e).data.isPrefixOf s.data then
    String.mk (s.data.drop (rawMessage e).data.length)
  else s

/-- The normalized stack of `format`, when the raw stack is truthy. -/
def processedStack (f : Formatter) (e : JSError) : Option String :=
  match e.stack with
  | none => none
  | some s =>
    if s == "" then none
    else some (normalizeStackTrace (strippedStack e s) f.filterErrorStack id)

/-- The guard of the diff step: `showDiff && typeof actual === 'object'
&& typeof expected === 'object'`. -/
def diffGuard (e : JSError) : Bool :=
  e.showDiff && (typeof e.actual == "object") && (typeof e.expected == "object")

/-- Modelled from the spec: the diff-step guard as the specification
states it, with non-primitive (object-like) operands. -/
def specDiffGuard (e : JSError) : Bool :=
  e.showDiff && isNonPrimitive e.actual && isNonPrimitive e.expected

/-- The diff step of `format`: append the diff block when the guard
holds and the diff is nonempty. -/
def withDiff (serialize : JSVal → String) (patch : String → String → String)
    (e : JSError) (message : String) : String :=
  if diffGuard e then
    let d := createDiff serialize patch e.actual e.expected
    if d == "" then message else message ++ "\n\n" ++ d ++ "\n"
  else message

/-- The location fallback of `format`: the synthetic `at` line with the
`No stack` marker, or the `No stack or location` marker. -/
def locationFallback (e : JSError) (message : String) : String :=
  if truthyS e.fileName then
    message ++ "\n  at " ++ e.fileName.getD "" ++
      (match e.lineNumber with
       | none => ""
       | some ln =>
         ":" ++ toString ln ++
           (match e.columnNumber with
            | none => ""
            | some cn => ":" ++ toString cn)) ++ "\nNo stack"
  else message ++ "\nNo stack or location"

/-- The trailer step of `format`: append the normalized stack when it
has a non-whitespace character, else fall back to the location. -/
def withTrailer (f : Formatter) (e : JSError) (message : String) : String :=
  match processedStack f e with
  | some st =>
    if st.data.any (fun c => !isWsChar c) then message ++ st else locationFallback e message
  | none => locationFallback e message

/-- The indentation step of `format`: prepend `space` to every line. -/
def applyIndent (space : Option String) (message : String) : String :=
  match space with
  | none => message
  | some sp => String.mk (joinNl ((splitNl message.data).map (fun l => sp.data ++ l)))

/-- Embeds `Formatter.format`; `serialize`, `patch` and `jsString`
model the external `toJSON`, `diff.createPatch` and JS string coercion
of a structureless error value, and the instance `_getSource` is the
identity as in the source class. -/
def Formatter.format (f : Formatter) (serialize : JSVal → String)
    (patch : String → String → String) (jsString : JSError → String)
    (error : FormatInput) (options : FormatOptions) : String :=
  applyIndent options.space
    (match error with
     | .str s => s
     | .err e =>
       if isStructured e then withTrailer f e (withDiff serialize patch e (composedMessage e))
       else jsString e)

/-- Count the occurrences of a character pattern in a text, one per
start position (position past the end included, for the empty pattern). -/
def countOccs (p : List Char) : List Char → Nat
  | [] => if p.isPrefixOf ([] : List Char) then 1 else 0
  | c :: cs => (if p.isPrefixOf (c :: cs) then 1 else 0) + countOccs p cs

/-- Modelled from the spec: the header formula `(name ?? "Error") +
": " + (message ?? "Unknown error")` with JS nullish coalescing, which
defaults only a missing field, not an empty one. -/
def specHeader (name message : Option String) : String :=
  name.getD "Error" ++ ": " ++ message.getD "Unknown error"

/-! ## Basic lemmas about the helpers -/

theorem data_append (s t : String) : (s ++ t).data = s.data ++ t.data := rfl

theorem mk_data (cs : List Char) : (String.mk cs).data = cs := rfl

theorem mk_data_self (s : String) : String.mk s.data = s := rfl

theorem splitNl_ne_nil (cs : List Char) : splitNl cs ≠ [] :=
  List.splitOnP_ne_nil _ _

theorem splitNl_nil : splitNl [] = [[]] := rfl

theorem splitNl_cons_nl (cs : List Char) : splitNl ('\n' :: cs) = [] :: splitNl cs := by
  simp [splitNl, List.splitOn, List.splitOnP_cons]

theorem splitNl_append_nl {a : List Char} (ha : '\n' ∉ a) (cs : List Char) :
    splitNl (a ++ '\n' :: cs) = a :: splitNl cs := by
  simp only [splitNl, List.splitOn]
  exact List.splitOnP_first _ a (by intro x hx; simp; exact fun h => ha (h ▸ hx)) '\n' (by simp) cs

theorem splitNl_eq_single {a : List Char} (ha : '\n' ∉ a) : splitNl a = [a] := by
  simp only [splitNl, List.splitOn]
  exact List.splitOnP_eq_single _ _ (by intro x hx; simp; exact fun h => ha (h ▸ hx))

theorem joinNl_splitNl (cs : List Char) : joinNl (splitNl cs) = cs :=
  List.intercalate_splitOn cs '\n'

theorem splitNl_joinNl {L : List (List Char)} (h : ∀ l ∈ L, '\n' ∉ l) (hL : L ≠ []) :
    splitNl (joinNl L) = L :=
  List.splitOn_intercalate L '\n' h hL

theorem mem_splitNl_no_nl : ∀ {cs l : List Char}, l ∈ splitNl cs → '\n' ∉ l := by
  intro cs
  induction cs with
  | nil =>
    intro l h
    simp only [splitNl, List.splitOn, List.splitOnP_nil, List.mem_singleton] at h
    simp [h]
  | cons c cs ih =>
    intro l h
    rw [splitNl, List.splitOn, List.splitOnP_cons] at h
    by_cases hc : c = '\n'
    · simp only [hc, beq_self_eq_true, if_true, List.mem_cons] at h
      rcases h with h | h
      · simp [h]
      · exact ih (by simpa [splitNl, List.splitOn] using h)
    · simp only [beq_eq_false_iff_ne.mpr hc, if_false] at h
      obtain ⟨hd, tl, he⟩ : ∃ hd tl, List.splitOnP (fun x => x == '\n') cs = hd :: tl := by
        cases hsp : List.splitOnP (fun x => x == '\n') cs with
        | nil => exact absurd hsp (List.splitOnP_ne_nil _ _)
        | cons a b => exact ⟨a, b, rfl⟩
      rw [he, List.modifyHead] at h
      rcases List.mem_cons.mp h with h | h
      · subst h
        intro hm
        rcases List.mem_cons.mp hm with hm | hm
        · exact hc hm.symm
        · exact ih (l := hd) (by simp [splitNl, List.splitOn, he]) hm
      · exact ih (by simp [splitNl, List.splitOn, he, h])

theorem joinNl_nil : joinNl [] = [] := rfl

theorem joinNl_single (l : List Char) : joinNl [l] = l := by
  simp [joinNl, List.intercalate]

theorem joinNl_cons2 (a b : List Char) (L : List (List Char)) :
    joinNl (a :: b :: L) = a ++ '\n' :: joinNl (b :: L) := by
  simp [joinNl, List.intercalate]

theorem headD_mem {α : Type} {L : List α} (d : α) (h : L ≠ []) : L.headD d ∈ L := by
  cases L with
  | nil => exact absurd rfl h
  | cons a t => simp

theorem dropTrailingWs_eq_self {cs : List Char}
    (h : ∀ c, cs.getLast? = some c → isWsChar c = false) : dropTrailingWs cs = cs := by
  unfold dropTrailingWs
  cases hr : cs.reverse with
  | nil =>
    have : cs = [] := by simpa using congrArg List.reverse hr
    simp [this]
  | cons c t =>
    have hlast : cs.getLast? = some c := by
      rw [← List.head?_reverse, hr]; rfl
    have hc := h c hlast
    rw [List.dropWhile_cons_of_neg (by simp [hc]), ← hr, List.reverse_reverse]

theorem isPrefixOf_append_self : ∀ (p t : List Char), p.isPrefixOf (p ++ t) = true := by
  intro p
  induction p with
  | nil => intro t; rw [List.nil_append]; cases t <;> rfl
  | cons c cs ih => intro t; simp [List.isPrefixOf, ih]

theorem countOccs_succ_of_head {p s : List Char} (hp : p ≠ []) (hpre : p.isPrefixOf s = true) :
    countOccs p s = 1 + countOccs p (s.drop 1) := by
  cases s with
  | nil =>
    cases p with
    | nil => exact absurd rfl hp
    | cons c cs => simp [List.isPrefixOf] at hpre
  | cons c cs => simp [countOccs, hpre]

theorem containsSub_append_left (p : List Char) :
    ∀ (a b : List Char), containsSub p b = true → containsSub p (a ++ b) = true := by
  intro a
  induction a with
  | nil => intro b h; simpa using h
  | cons c cs ih => intro b h; simp only [List.cons_append, containsSub]; simp [ih b h]

theorem containsSub_self_append (p t : List Char) : containsSub p (p ++ t) = true := by
  cases p with
  | nil =>
    simp only [List.nil_append]
    cases t with
    | nil => rfl
    | cons c cs => simp [containsSub, List.isPrefixOf]
  | cons c cs => simp [containsSub, isPrefixOf_append_self]

/-! ## Structure of the normalizer output -/

theorem rawLines_ne_nil (s : String) : rawLines s ≠ [] := splitNl_ne_nil _

theorem mem_rawLines_no_nl {s : String} {l : List Char} (h : l ∈ rawLines s) : '\n' ∉ l :=
  mem_splitNl_no_nl h

theorem mem_bodyLines_raw {s : String} {l : List Char} (h : l ∈ bodyLines s) : l ∈ rawLines s := by
  unfold bodyLines at h
  have h2 := List.Sublist.mem h (List.dropWhile_sublist _)
  by_cases hh : matchesErrorHeader ((rawLines s).headD []) = true
  · rw [if_pos hh] at h2
    exact List.Sublist.mem h2 (List.drop_sublist _ _)
  · rw [if_neg hh] at h2
    exact h2

/-- The noise test rejects the empty line. -/
theorem isNoiseLine_nil : isNoiseLine [] = false := by decide

/-- The error-name header test rejects the empty line. -/
theorem matchesErrorHeader_nil : matchesErrorHeader [] = false := by decide

/-- Lines of the normalizer output: a leading empty line from the
synthetic newline, the preserved header line when present, then the
final frame lines (with a single empty line when they are empty). -/
theorem splitNl_header_join (s : String) (F : List (List Char)) (hF : ∀ l ∈ F, '\n' ∉ l) :
    splitNl ('\n' :: (headerPart s ++ joinNl F)) =
      [] :: (if matchesErrorHeader ((rawLines s).headD []) then [(rawLines s).headD []] else []) ++
        (if F = [] then [[]] else F) := by
  rw [splitNl_cons_nl]
  have hhl : '\n' ∉ (rawLines s).headD [] :=
    mem_rawLines_no_nl (headD_mem _ (rawLines_ne_nil s))
  by_cases hh : matchesErrorHeader ((rawLines s).headD []) = true
  · rw [headerPart, if_pos hh, if_pos hh]
    have : ((rawLines s).headD [] ++ ['\n']) ++ joinNl F =
        (rawLines s).headD [] ++ '\n' :: joinNl F := by
      simp
    rw [this, splitNl_append_nl hhl]
    by_cases hF0 : F = []
    · subst hF0; rw [joinNl_nil, if_pos rfl]; rfl
    · rw [splitNl_joinNl hF hF0, if_neg hF0]; rfl
  · rw [headerPart, if_neg hh, if_neg hh]
    simp only [List.nil_append, List.singleton_append]
    by_cases hF0 : F = []
    · subst hF0; rw [joinNl_nil, if_pos rfl]; rfl
    · rw [splitNl_joinNl hF hF0, if_neg hF0]

/-- The data of the normalizer output, by cases on the filter flag. -/
theorem normalize_data (s : String) (fl : Bool) (g : String → String) :
    (normalizeStackTrace s fl g).data =
      '\n' :: (headerPart s ++ joinNl
        (if fl then (processedLinesOf s g).filter (fun l => !isNoiseLine l)
         else processedLinesOf s g)) := by
  cases fl <;> rfl

/-! ## The processors add no newline -/

theorem chromeLazy_subset :
    ∀ (rest acc f src : List Char), chromeLazy acc rest = some (f, src) →
      (∀ c ∈ f, c ∈ acc ∨ c ∈ rest) ∧ (∀ c ∈ src, c ∈ rest) := by
  intro rest
  induction rest with
  | nil => intro acc f src h; simp [chromeLazy] at h
  | cons c cs ih =>
    intro acc f src h
    rw [chromeLazy] at h
    by_cases hc : (c == ' ' && ['('].isPrefixOf cs && chromeSrcOk (cs.drop 1)) = true
    · rw [if_pos hc] at h
      injection h with h'
      have hf : f = acc.reverse := (congrArg Prod.fst h').symm
      have hs : src = (cs.drop 1).dropLast := (congrArg Prod.snd h').symm
      constructor
      · intro x hx
        exact Or.inl (List.mem_reverse.mp (hf ▸ hx))
      · intro x hx
        have : x ∈ cs.drop 1 := List.Sublist.mem (hs ▸ hx) (List.dropLast_sublist _)
        exact List.mem_cons_of_mem _ (List.Sublist.mem this (List.drop_sublist _ _))
    · rw [if_neg hc] at h
      obtain ⟨h1, h2⟩ := ih (c :: acc) f src h
      constructor
      · intro x hx
        rcases h1 x hx with hx' | hx'
        · rcases List.mem_cons.mp hx' with hx'' | hx''
          · exact Or.inr (hx'' ▸ List.mem_cons_self _ _)
          · exact Or.inl hx''
        · exact Or.inr (List.mem_cons_of_mem _ hx')
      · intro x hx
        exact List.mem_cons_of_mem _ (h2 x hx)

theorem formatLine_data_none (src : String) (g : String → String) :
    (formatLine none src g).data = "  at <".data ++ (g src).data ++ ['>'] := by
  simp [formatLine, truthyS, data_append]

theorem formatLine_data_some {f : String} (hf : f ≠ "") (src : String) (g : String → String) :
    (formatLine (some f) src g).data =
      "  at ".data ++ f.data ++ "  <".data ++ (g src).data ++ ['>'] := by
  have : (f == "") = false := beq_eq_false_iff_ne.mpr hf
  simp [formatLine, truthyS, this, data_append]


/-! ## Goodness of processed lines -/

/-- A well-formed trace line: newline-free, not blank, and ending in a
non-whitespace character. -/
def goodLine (l : List Char) : Prop :=
  '\n' ∉ l ∧ isBlankLine l = false ∧ ∀ c, l.getLast? = some c → isWsChar c = false

theorem goodLine_format_shape {pre : List Char} {l : List Char}
    (hpre : '\n' ∉ pre) (ha : 'a' ∈ pre) (hl : '\n' ∉ l) :
    goodLine (pre ++ l ++ ['>']) := by
  refine ⟨?_, ?_, ?_⟩
  · intro hmem
    rcases List.mem_append.mp hmem with hmem | hmem
    · rcases List.mem_append.mp hmem with hmem | hmem
      · exact hpre hmem
      · exact hl hmem
    · simp at hmem
  · have hmem : 'a' ∈ pre ++ l ++ ['>'] :=
      List.mem_append_left _ (List.mem_append_left _ ha)
    refine Bool.eq_false_iff.mpr fun hall => ?_
    have := List.all_eq_true.mp hall 'a' hmem
    simp [isWsChar] at this
  · intro c hc
    rw [List.getLast?_concat] at hc
    injection hc with hc
    subst hc
    decide

theorem goodLine_format_anon (src : String) (g : String → String)
    (hg : '\n' ∉ (g src).data) :
    goodLine (formatLine none src g).data := by
  rw [formatLine_data_none]
  exact goodLine_format_shape (by decide) (by decide) hg

theorem goodLine_format_some {f : List Char} (src : String) (g : String → String)
    (hg : '\n' ∉ (g src).data) (hf : '\n' ∉ f) :
    goodLine (formatLine (some (String.mk f)) src g).data := by
  by_cases h0 : String.mk f = ""
  · have : (formatLine (some (String.mk f)) src g).data =
        "  at <".data ++ (g src).data ++ ['>'] := by
      simp [formatLine, truthyS, h0, data_append]
    rw [this]
    exact goodLine_format_shape (by decide) (by decide) hg
  · rw [formatLine_data_some h0]
    have heq : "  at ".data ++ (String.mk f).data ++ "  <".data ++ (g src).data ++ ['>'] =
        ("  at ".data ++ (String.mk f).data ++ "  <".data) ++ (g src).data ++ ['>'] := by
      simp [List.append_assoc]
    rw [heq]
    refine goodLine_format_shape ?_ ?_ hg
    · intro hmem
      rcases List.mem_append.mp hmem with hmem | hmem
      · rcases List.mem_append.mp hmem with hmem | hmem
        · simp at hmem
        · exact hf hmem
      · simp at hmem
    · exact List.mem_append_left _ (List.mem_append_left _ (by decide))

theorem goodLine_chrome {l : List Char} (g : String → String)
    (hg : ∀ x : String, '\n' ∉ (g x).data) (h : goodLine l) :
    goodLine (processChromeLine g l) := by
  cases hab : chromeAtBody l with
  | none => simpa only [processChromeLine, hab] using h
  | some body =>
    have hbody : ∀ c ∈ body, c ∈ l := by
      intro c hc
      unfold chromeAtBody at hab
      by_cases hat : "at ".data.isPrefixOf (l.dropWhile isWsChar) = true
      · rw [if_pos hat] at hab
        injection hab with hab
        subst hab
        exact List.Sublist.mem
          (List.Sublist.mem hc (List.drop_sublist _ _)) (List.dropWhile_sublist _)
      · rw [if_neg hat] at hab; cases hab
    cases hp : chromeParen body with
    | some fs =>
      obtain ⟨f, src⟩ := fs
      have hfnl : '\n' ∉ f := by
        intro hmem
        unfold chromeParen at hp
        cases body with
        | nil => cases hp
        | cons b bs =>
          obtain ⟨h1, _⟩ := chromeLazy_subset bs [b] f src hp
          rcases h1 '\n' hmem with hc' | hc'
          · rw [List.mem_singleton] at hc'
            exact h.1 (by rw [hc']; exact hbody b (List.mem_cons_self _ _))
          · exact h.1 (hbody '\n' (List.mem_cons_of_mem _ hc'))
      simp only [processChromeLine, hab, hp]
      exact goodLine_format_some _ g (hg _) hfnl
    | none =>
      simp only [processChromeLine, hab, hp]
      exact goodLine_format_anon _ g (hg _)

theorem goodLine_safari {l : List Char} (g : String → String)
    (hg : ∀ x : String, '\n' ∉ (g x).data) (h : goodLine l) :
    goodLine (processSafariLine g l) := by
  cases ha : safariAt l with
  | some fs =>
    obtain ⟨f, src⟩ := fs
    have hfnl : '\n' ∉ f := by
      intro hmem
      unfold safariAt at ha
      by_cases hc : l.takeWhile (fun c => !(c == '@')) ≠ [] ∧
          (l.takeWhile (fun c => !(c == '@'))).length < l.length
      · rw [if_pos hc] at ha
        injection ha with ha
        have hfe : f = l.takeWhile (fun c => !(c == '@')) := (congrArg Prod.fst ha).symm
        exact h.1 (List.Sublist.mem (hfe ▸ hmem) (List.takeWhile_sublist _))
      · rw [if_neg hc] at ha; cases ha
    simp only [processSafariLine, ha]
    exact goodLine_format_some _ g (hg _) hfnl
  | none =>
    by_cases hu : safariUrl l = true
    · simp only [processSafariLine, ha, if_pos hu]
      exact goodLine_format_anon _ g (hg _)
    · simp only [processSafariLine, ha, if_neg hu]
      exact h

/-! ## Shapes of processed lines, and membership in the output -/

theorem chromeLine_shape (g : String → String) (l : List Char) :
    processChromeLine g l = l ∨
      (∃ src : String, processChromeLine g l = (formatLine none src g).data) ∨
      (∃ f : List Char, (∀ c ∈ f, c ∈ l) ∧
        ∃ src : String, processChromeLine g l = (formatLine (some (String.mk f)) src g).data) := by
  cases hab : chromeAtBody l with
  | none => exact Or.inl (by simp only [processChromeLine, hab])
  | some body =>
    have hbody : ∀ c ∈ body, c ∈ l := by
      intro c hc
      unfold chromeAtBody at hab
      by_cases hat : "at ".data.isPrefixOf (l.dropWhile isWsChar) = true
      · rw [if_pos hat] at hab
        injection hab with hab
        subst hab
        exact List.Sublist.mem
          (List.Sublist.mem hc (List.drop_sublist _ _)) (List.dropWhile_sublist _)
      · rw [if_neg hat] at hab; cases hab
    cases hp : chromeParen body with
    | some fs =>
      obtain ⟨f, src⟩ := fs
      refine Or.inr (Or.inr ⟨f, ?_, String.mk src, by simp only [processChromeLine, hab, hp]⟩)
      intro c hc
      unfold chromeParen at hp
      cases body with
      | nil => cases hp
      | cons b bs =>
        obtain ⟨h1, _⟩ := chromeLazy_subset bs [b] f src hp
        rcases h1 c hc with hc' | hc'
        · rw [List.mem_singleton] at hc'
          rw [hc']
          exact hbody b (List.mem_cons_self _ _)
        · exact hbody c (List.mem_cons_of_mem _ hc')
    | none =>
      exact Or.inr (Or.inl ⟨String.mk body, by simp only [processChromeLine, hab, hp]⟩)

theorem safariLine_shape (g : String → String) (l : List Char) :
    processSafariLine g l = l ∨
      (∃ src : String, processSafariLine g l = (formatLine none src g).data) ∨
      (∃ f : List Char, (∀ c ∈ f, c ∈ l) ∧
        ∃ src : String, processSafariLine g l = (formatLine (some (String.mk f)) src g).data) := by
  cases ha : safariAt l with
  | some fs =>
    obtain ⟨f, src⟩ := fs
    refine Or.inr (Or.inr ⟨f, ?_, String.mk src, by simp only [processSafariLine, ha]⟩)
    intro c hc
    unfold safariAt at ha
    by_cases hcnd : l.takeWhile (fun c => !(c == '@')) ≠ [] ∧
        (l.takeWhile (fun c => !(c == '@'))).length < l.length
    · rw [if_pos hcnd] at ha
      injection ha with ha
      have hfe : f = l.takeWhile (fun c => !(c == '@')) := (congrArg Prod.fst ha).symm
      exact List.Sublist.mem (hfe ▸ hc) (List.takeWhile_sublist _)
    · rw [if_neg hcnd] at ha; cases ha
  | none =>
    by_cases hu : safariUrl l = true
    · exact Or.inr (Or.inl ⟨String.mk l, by simp only [processSafariLine, ha, if_pos hu]⟩)
    · exact Or.inl (by simp only [processSafariLine, ha, if_neg hu])

theorem noNl_chrome {l : List Char} (g : String → String)
    (hg : ∀ x : String, '\n' ∉ (g x).data) (hnl : '\n' ∉ l) :
    '\n' ∉ processChromeLine g l := by
  rcases chromeLine_shape g l with h | ⟨src, h⟩ | ⟨f, hsub, src, h⟩
  · rw [h]; exact hnl
  · rw [h]; exact (goodLine_format_anon src g (hg _)).1
  · rw [h]; exact (goodLine_format_some src g (hg _) fun hm => hnl (hsub _ hm)).1

theorem noNl_safari {l : List Char} (g : String → String)
    (hg : ∀ x : String, '\n' ∉ (g x).data) (hnl : '\n' ∉ l) :
    '\n' ∉ processSafariLine g l := by
  rcases safariLine_shape g l with h | ⟨src, h⟩ | ⟨f, hsub, src, h⟩
  · rw [h]; exact hnl
  · rw [h]; exact (goodLine_format_anon src g (hg _)).1
  · rw [h]; exact (goodLine_format_some src g (hg _) fun hm => hnl (hsub _ hm)).1

theorem mem_processed_no_nl {s : String} {g : String → String}
    (hg : ∀ x : String, '\n' ∉ (g x).data) :
    ∀ l ∈ processedLinesOf s g, '\n' ∉ l := by
  intro l hl
  unfold processedLinesOf at hl
  by_cases hsn : sniffChrome (bodyLines s) = true
  · rw [if_pos hsn] at hl
    unfold processChromeTrace at hl
    obtain ⟨a, ha, rfl⟩ := List.mem_map.mp hl
    exact noNl_chrome g hg (mem_rawLines_no_nl (mem_bodyLines_raw ha))
  · rw [if_neg hsn] at hl
    unfold processSafariTrace at hl
    obtain ⟨a, ha, rfl⟩ := List.mem_map.mp hl
    exact noNl_safari g hg (mem_rawLines_no_nl (mem_bodyLines_raw ha))

theorem mem_lines_normalize_false (s : String) (g : String → String)
    (hg : ∀ x : String, '\n' ∉ (g x).data) {ℓ : List Char}
    (hmem : ℓ ∈ processedLinesOf s g) :
    ℓ ∈ splitNl (normalizeStackTrace s false g).data := by
  have hd : (normalizeStackTrace s false g).data =
      '\n' :: (headerPart s ++ joinNl (processedLinesOf s g)) := by
    rw [normalize_data]; simp
  rw [hd, splitNl_header_join s _ (fun l hl => mem_processed_no_nl hg l hl)]
  have hne : processedLinesOf s g ≠ [] := fun h => by simp [h] at hmem
  rw [if_neg hne]
  exact List.mem_append_right _ hmem

theorem not_mem_lines_normalize_true (s : String) (g : String → String)
    (hg : ∀ x : String, '\n' ∉ (g x).data) {ℓ : List Char}
    (hn : isNoiseLine ℓ = true) (hh : matchesErrorHeader ℓ = false) :
    ℓ ∉ splitNl (normalizeStackTrace s true g).data := by
  intro hcontra
  have hd : (normalizeStackTrace s true g).data =
      '\n' :: (headerPart s ++
        joinNl ((processedLinesOf s g).filter (fun l => !isNoiseLine l))) := by
    rw [normalize_data]; simp
  have hfn : ∀ l ∈ (processedLinesOf s g).filter (fun l => !isNoiseLine l), '\n' ∉ l :=
    fun l hl => mem_processed_no_nl hg l (List.mem_filter.mp hl).1
  rw [hd, splitNl_header_join s _ hfn] at hcontra
  have hlne : ℓ ≠ [] := by
    intro h
    rw [h, isNoiseLine_nil] at hn
    cases hn
  rcases List.mem_append.mp hcontra with hc | hc
  · rcases List.mem_cons.mp hc with hc | hc
    · exact hlne hc
    · by_cases hhd : matchesErrorHeader ((rawLines s).headD []) = true
      · rw [if_pos hhd, List.mem_singleton] at hc
        rw [← hc, hh] at hhd
        cases hhd
      · rw [if_neg hhd] at hc
        simp at hc
  · by_cases hF0 : (processedLinesOf s g).filter (fun l => !isNoiseLine l) = []
    · rw [if_pos hF0, List.mem_singleton] at hc
      exact hlne hc
    · rw [if_neg hF0] at hc
      have hmf := (List.mem_filter.mp hc).2
      rw [hn] at hmf
      cases hmf

/-! ## Composition facts about format -/

theorem str_append_assoc (a b c : String) : (a ++ b) ++ c = a ++ (b ++ c) :=
  String.ext (by simp [data_append, List.append_assoc])

theorem str_append_empty (m : String) : m ++ "" = m :=
  String.ext (by simp [data_append])

theorem composedMessage_data (e : JSError) :
    (composedMessage e).data =
      (orDefault e.name "Error").data ++ ':' :: ' ' :: (orDefault e.message "Unknown error").data := by
  simp [composedMessage, data_append]

theorem composedMessage_ne_nil (e : JSError) : (composedMessage e).data ≠ [] := by
  rw [composedMessage_data]
  intro h
  have := congrArg List.length h
  simp at this

theorem locationFallback_append (e : JSError) (m : String) :
    ∃ t : String, locationFallback e m = m ++ t := by
  unfold locationFallback
  by_cases ht : truthyS e.fileName = true
  · refine ⟨"\n  at " ++ e.fileName.getD "" ++
      (match e.lineNumber with
       | none => ""
       | some ln =>
         ":" ++ toString ln ++
           (match e.columnNumber with
            | none => ""
            | some cn => ":" ++ toString cn)) ++ "\nNo stack", ?_⟩
    rw [if_pos ht]
    exact String.ext (by simp [data_append, List.append_assoc])
  · exact ⟨"\nNo stack or location", by rw [if_neg ht]⟩

theorem withTrailer_append (f : Formatter) (e : JSError) (m : String) :
    ∃ t : String, withTrailer f e m = m ++ t := by
  unfold withTrailer
  split
  · rename_i st heq
    by_cases ha : st.data.any (fun c => !isWsChar c) = true
    · exact ⟨st, by rw [if_pos ha]⟩
    · rw [if_neg ha]
      exact locationFallback_append e m
  · exact locationFallback_append e m

theorem withDiff_append (ser : JSVal → String) (patch : String → String → String)
    (e : JSError) (m : String) :
    ∃ t : String, withDiff ser patch e m = m ++ t := by
  unfold withDiff
  by_cases hgd : diffGuard e = true
  · rw [if_pos hgd]
    by_cases hd : (createDiff ser patch e.actual e.expected == "") = true
    · exact ⟨"", by simp only [hd, if_pos]; exact (str_append_empty m).symm⟩
    · refine ⟨"\n\n" ++ createDiff ser patch e.actual e.expected ++ "\n", ?_⟩
      simp only [hd]
      rw [if_neg (by simp)]
      exact String.ext (by simp [data_append, List.append_assoc])
  · rw [if_neg hgd]
    exact ⟨"", (str_append_empty m).symm⟩

theorem format_structured (f : Formatter) (ser : JSVal → String)
    (patch : String → String → String) (js : JSError → String) (e : JSError)
    (hs : isStructured e = true) :
    Formatter.format f ser patch js (.err e) {} =
      withTrailer f e (withDiff ser patch e (composedMessage e)) := by
  simp [Formatter.format, applyIndent, hs]

theorem format_eq_composed_append (f : Formatter) (ser : JSVal → String)
    (patch : String → String → String) (js : JSError → String) (e : JSError)
    (hs : isStructured e = true) :
    ∃ t : String,
      Formatter.format f ser patch js (.err e) {} = composedMessage e ++ t := by
  obtain ⟨t1, h1⟩ := withDiff_append ser patch e (composedMessage e)
  obtain ⟨t2, h2⟩ := withTrailer_append f e (withDiff ser patch e (composedMessage e))
  refine ⟨t1 ++ t2, ?_⟩
  rw [format_structured f ser patch js e hs, h2, h1, str_append_assoc]

/-! ## Suffix and length helpers -/

theorem isSuffixOf_append_str (a b : String) : b.data.isSuffixOf (a ++ b).data = true := by
  simp [List.isSuffixOf, data_append, List.reverse_append, isPrefixOf_append_self]

theorem isPrefixOf_length_le : ∀ (p s : List Char), p.isPrefixOf s = true → p.length ≤ s.length := by
  intro p
  induction p with
  | nil => simp
  | cons c cs ih =>
    intro s h
    cases s with
    | nil => simp [List.isPrefixOf] at h
    | cons d ds =>
      simp only [List.isPrefixOf, Bool.and_eq_true] at h
      have := ih ds h.2
      simp only [List.length_cons]
      omega

/-! ## Claim theorems -/

/-- C8: the trace-line formatter produces `"  at <resolved-source>"`
when the function name is absent and `"  at <func>  <resolved-source>"`
otherwise, where the resolved source is the injected `resolveSource`
applied to the frame's source (the angle brackets around the resolved
source are literal in the output). -/
theorem claim_format_line (getSource : String → String) (source : String) :
    formatLine none source getSource = "  at <" ++ getSource source ++ ">" ∧
      ∀ func : String, func ≠ "" →
        formatLine (some func) source getSource =
          "  at " ++ func ++ "  <" ++ getSource source ++ ">" := by
  constructor
  · simp [formatLine, truthyS]
  · intro func hf
    simp [formatLine, truthyS, beq_eq_false_iff_ne.mpr hf]

/-- C8 witness: the theorem evaluated at a concrete frame. -/
theorem claim_format_line_witness :
    formatLine (some "run") "src/a.ts:3:7" id =
      "  at " ++ "run" ++ "  <" ++ id "src/a.ts:3:7" ++ ">" :=
  (claim_format_line id "src/a.ts:3:7").2 "run" (by decide)

/-- C9 counterexample: with `name` present but empty and message `"m"`,
the code composes `"Error: m"` (JS `||` defaulting), while the claim's
formula `(name ?? "Error") + ": " + (message ?? "Unknown error")` with
nullish coalescing gives `": m"`; the output does not start with the
claimed header. -/
theorem claim_header_defaults_counterexample :
    Formatter.format {} (fun _ => "") (fun _ _ => "") (fun _ => "")
        (.err {name := some "", message := some "m"}) {} = "Error: m\nNo stack or location" ∧
      specHeader (some "") (some "m") = ": m" ∧
      (specHeader (some "") (some "m")).data.isPrefixOf
        (Formatter.format {} (fun _ => "") (fun _ _ => "") (fun _ => "")
          (.err {name := some "", message := some "m"}) {}).data = false := by
  decide

theorem claim_header_none_case (n : Option String) :
    Formatter.format {} (fun _ => "") (fun _ _ => "") (fun _ => "")
        (.err {name := n, message := none, stack := some " "}) {} =
      (match n with
       | none => "Error"
       | some nm => if nm = "" then "Error" else nm) ++
        ": Unknown error\nNo stack or location" := by
  have hs : isStructured {name := n, message := none, stack := some " "} = true := by
    simp [isStructured, truthyS]
  rw [format_structured _ _ _ _ _ hs]
  have hwd : withDiff (fun _ => "") (fun _ _ => "")
      {name := n, message := none, stack := some " "}
      (composedMessage {name := n, message := none, stack := some " "}) =
      composedMessage {name := n, message := none, stack := some " "} := by
    simp [withDiff, diffGuard]
  rw [hwd]
  have hp1 : (composedMessage {name := n, message := none, stack := some " "}).data.isPrefixOf
      (" " : String).data = false := by
    refine Bool.eq_false_iff.mpr fun hp => ?_
    have hle := isPrefixOf_length_le _ _ hp
    rw [composedMessage_data] at hle
    simp [orDefault] at hle
  have hstr : strippedStack {name := n, message := none, stack := some " "} " " = " " := by
    unfold strippedStack
    rw [hp1]
    simp [rawMessage]
  have hps : processedStack {} {name := n, message := none, stack := some " "} =
      some "\n" := by
    unfold processedStack
    simp only [hstr]
    norm_num
    decide
  have htr : withTrailer {} {name := n, message := none, stack := some " "}
      (composedMessage {name := n, message := none, stack := some " "}) =
      composedMessage {name := n, message := none, stack := some " "} ++
        "\nNo stack or location" := by
    simp only [withTrailer, hps]
    rw [if_neg (by decide)]
    simp [locationFallback, truthyS]
  rw [htr]
  cases n with
  | none =>
    exact String.ext (by simp [composedMessage, orDefault, data_append])
  | some nm =>
    by_cases hnm : nm = ""
    · subst hnm
      exact String.ext (by simp [composedMessage, orDefault, data_append])
    · exact String.ext (by
        simp [composedMessage, orDefault, data_append,
          beq_eq_false_iff_ne.mpr hnm, hnm])

theorem claim_header_empty_case (n : Option String) :
    Formatter.format {} (fun _ => "") (fun _ _ => "") (fun _ => "")
        (.err {name := n, message := some "", stack := some " "}) {} =
      (match n with
       | none => "Error"
       | some nm => if nm = "" then "Error" else nm) ++
        ": Unknown error\nNo stack or location" := by
  have hs : isStructured {name := n, message := some "", stack := some " "} = true := by
    simp [isStructured, truthyS]
  rw [format_structured _ _ _ _ _ hs]
  have hwd : withDiff (fun _ => "") (fun _ _ => "")
      {name := n, message := some "", stack := some " "}
      (composedMessage {name := n, message := some "", stack := some " "}) =
      composedMessage {name := n, message := some "", stack := some " "} := by
    simp [withDiff, diffGuard]
  rw [hwd]
  have hp1 : (composedMessage {name := n, message := some "", stack := some " "}).data.isPrefixOf
      (" " : String).data = false := by
    refine Bool.eq_false_iff.mpr fun hp => ?_
    have hle := isPrefixOf_length_le _ _ hp
    rw [composedMessage_data] at hle
    simp [orDefault] at hle
  have hstr : strippedStack {name := n, message := some "", stack := some " "} " " = " " := by
    have hraw : rawMessage {name := n, message := some "", stack := some " "} = "" := rfl
    unfold strippedStack
    rw [hp1]
    norm_num
    rw [hraw]
    decide
  have hps : processedStack {} {name := n, message := some "", stack := some " "} =
      some "\n" := by
    unfold processedStack
    simp only [hstr]
    norm_num
    decide
  have htr : withTrailer {} {name := n, message := some "", stack := some " "}
      (composedMessage {name := n, message := some "", stack := some " "}) =
      composedMessage {name := n, message := some "", stack := some " "} ++
        "\nNo stack or location" := by
    simp only [withTrailer, hps]
    rw [if_neg (by decide)]
    simp [locationFallback, truthyS]
  rw [htr]
  cases n with
  | none =>
    exact String.ext (by simp [composedMessage, orDefault, data_append])
  | some nm =>
    by_cases hnm : nm = ""
    · subst hnm
      exact String.ext (by simp [composedMessage, orDefault, data_append])
    · exact String.ext (by
        simp [composedMessage, orDefault, data_append,
          beq_eq_false_iff_ne.mpr hnm, hnm])

/-- C9 (amended): the composed header is
`(name || "Error") + ": " + (message || "Unknown error")`: the default
is substituted exactly when the field is missing or the empty string
(JS `||` semantics rather than the claim's `??`). -/
theorem claim_header_defaults :
    (∀ (n : Option String) (m : String), m ≠ "" →
      Formatter.format {} (fun _ => "") (fun _ _ => "") (fun _ => "")
          (.err {name := n, message := some m}) {} =
        (match n with
         | none => "Error"
         | some nm => if nm = "" then "Error" else nm) ++ ": " ++ m ++ "\nNo stack or location") ∧
    ∀ (n : Option String) (mo : Option String), mo = none ∨ mo = some "" →
      Formatter.format {} (fun _ => "") (fun _ _ => "") (fun _ => "")
          (.err {name := n, message := mo, stack := some " "}) {} =
        (match n with
         | none => "Error"
         | some nm => if nm = "" then "Error" else nm) ++
          ": Unknown error\nNo stack or location" := by
  constructor
  · intro n m hm
    have hs : isStructured {name := n, message := some m} = true := by
      simp [isStructured, truthyS, beq_eq_false_iff_ne.mpr hm]
    rw [format_structured _ _ _ _ _ hs]
    have hwd : withDiff (fun _ => "") (fun _ _ => "")
        {name := n, message := some m}
        (composedMessage {name := n, message := some m}) =
        composedMessage {name := n, message := some m} := by
      simp [withDiff, diffGuard]
    rw [hwd]
    have htr : withTrailer {} {name := n, message := some m}
        (composedMessage {name := n, message := some m}) =
        composedMessage {name := n, message := some m} ++ "\nNo stack or location" := by
      simp [withTrailer, processedStack, locationFallback, truthyS]
    rw [htr]
    cases n with
    | none =>
      exact String.ext (by
        simp [composedMessage, orDefault, data_append, beq_eq_false_iff_ne.mpr hm])
    | some nm =>
      by_cases hnm : nm = ""
      · subst hnm
        exact String.ext (by
          simp [composedMessage, orDefault, data_append, beq_eq_false_iff_ne.mpr hm])
      · exact String.ext (by
          simp [composedMessage, orDefault, data_append, beq_eq_false_iff_ne.mpr hm,
            beq_eq_false_iff_ne.mpr hnm, hnm])
  · intro n mo hmo
    rcases hmo with rfl | rfl
    · exact claim_header_none_case n
    · exact claim_header_empty_case n

/-- C9 witness: the amended theorem evaluated at concrete names, with
the message present, missing, and present but empty. -/
theorem claim_header_defaults_witness :
    (Formatter.format {} (fun _ => "") (fun _ _ => "") (fun _ => "")
        (.err {name := some "TypeError", message := some "boom"}) {} =
      (match (some "TypeError" : Option String) with
       | none => "Error"
       | some nm => if nm = "" then "Error" else nm) ++ ": " ++ "boom" ++
        "\nNo stack or location") ∧
    (Formatter.format {} (fun _ => "") (fun _ _ => "") (fun _ => "")
        (.err {name := none, message := none, stack := some " "}) {} =
      (match (none : Option String) with
       | none => "Error"
       | some nm => if nm = "" then "Error" else nm) ++
        ": Unknown error\nNo stack or location") ∧
    Formatter.format {} (fun _ => "") (fun _ _ => "") (fun _ => "")
        (.err {name := some "TypeError", message := some "", stack := some " "}) {} =
      (match (some "TypeError" : Option String) with
       | none => "Error"
       | some nm => if nm = "" then "Error" else nm) ++
        ": Unknown error\nNo stack or location" :=
  ⟨claim_header_defaults.1 (some "TypeError") "boom" (by decide),
   claim_header_defaults.2 none none (Or.inl rfl),
   claim_header_defaults.2 (some "TypeError") (some "") (Or.inr rfl)⟩

/-- C3: when the normalized stack is missing or has no non-whitespace
character, the trailer is chosen mutually exclusively: with a truthy
fileName the output ends with the synthetic location line (with
`:lineNumber` when set, and `:columnNumber` when additionally set)
followed by the literal `No stack` marker; otherwise it ends with the
literal `No stack or location` marker. -/
theorem claim_trailer_selection (f : Formatter) (ser : JSVal → String)
    (patch : String → String → String) (js : JSError → String) (e : JSError)
    (hs : isStructured e = true)
    (hns : (processedStack f e).all (fun st => !st.data.any (fun c => !isWsChar c)) = true) :
    (truthyS e.fileName = false →
      ("\nNo stack or location").data.isSuffixOf
        (Formatter.format f ser patch js (.err e) {}).data = true) ∧
    ∀ fn : String, e.fileName = some fn → fn ≠ "" →
      ("\n  at " ++ fn ++
        (match e.lineNumber with
         | none => ""
         | some ln =>
           ":" ++ toString ln ++
             (match e.columnNumber with
              | none => ""
              | some cn => ":" ++ toString cn)) ++ "\nNo stack").data.isSuffixOf
        (Formatter.format f ser patch js (.err e) {}).data = true := by
  have hfmt := format_structured f ser patch js e hs
  have htr : withTrailer f e (withDiff ser patch e (composedMessage e)) =
      locationFallback e (withDiff ser patch e (composedMessage e)) := by
    unfold withTrailer
    split
    · rename_i st hst
      rw [hst] at hns
      simp only [Option.all] at hns
      rw [if_neg (by simp only [Bool.not_eq_true'] at hns; simp [hns])]
    · rfl
  constructor
  · intro hf
    rw [hfmt, htr]
    unfold locationFallback
    rw [if_neg (by simp [hf])]
    exact isSuffixOf_append_str _ _
  · intro fn hfn hfne
    rw [hfmt, htr]
    unfold locationFallback
    have ht : truthyS e.fileName = true := by
      rw [hfn]; simp [truthyS, beq_eq_false_iff_ne.mpr hfne]
    rw [if_pos ht, hfn]
    have hre : withDiff ser patch e (composedMessage e) ++ "\n  at " ++ (some fn).getD "" ++
        (match e.lineNumber with
         | none => ""
         | some ln =>
           ":" ++ toString ln ++
             (match e.columnNumber with
              | none => ""
              | some cn => ":" ++ toString cn)) ++ "\nNo stack" =
        withDiff ser patch e (composedMessage e) ++ ("\n  at " ++ fn ++
        (match e.lineNumber with
         | none => ""
         | some ln =>
           ":" ++ toString ln ++
             (match e.columnNumber with
              | none => ""
              | some cn => ":" ++ toString cn)) ++ "\nNo stack") := by
      exact String.ext (by simp [data_append, List.append_assoc])
    rw [hre]
    exact isSuffixOf_append_str _ _

/-- C3 witness: the theorem evaluated at a concrete error without a
fileName and at one with fileName and lineNumber set. -/
theorem claim_trailer_selection_witness :
    ("\nNo stack or location").data.isSuffixOf
        (Formatter.format {} (fun _ => "") (fun _ _ => "") (fun _ => "")
          (.err {message := some "m"}) {}).data = true ∧
      ("\n  at " ++ "f.ts" ++
        (match (some (3 : Int) : Option Int) with
         | none => ""
         | some ln =>
           ":" ++ toString ln ++
             (match (none : Option Int) with
              | none => ""
              | some cn => ":" ++ toString cn)) ++ "\nNo stack").data.isSuffixOf
        (Formatter.format {} (fun _ => "") (fun _ _ => "") (fun _ => "")
          (.err {message := some "m", fileName := some "f.ts", lineNumber := some 3}) {}).data =
        true :=
  ⟨(claim_trailer_selection {} (fun _ => "") (fun _ _ => "") (fun _ => "")
      {message := some "m"} (by decide) (by decide)).1 (by decide),
   (claim_trailer_selection {} (fun _ => "") (fun _ _ => "") (fun _ => "")
      {message := some "m", fileName := some "f.ts", lineNumber := some 3}
      (by decide) (by decide)).2 "f.ts" rfl (by decide)⟩

/-- C6: a processed line matching a noise pattern is present among the
output lines of the normalizer when the filter flag is false and absent
when it is true (the resolved sources are assumed newline-free, and the
line is not itself an error-name header line, which the normalizer
extracts before parsing). -/
theorem claim_noise_filter (s : String) (g : String → String) (ℓ : List Char)
    (hg : ∀ x : String, '\n' ∉ (g x).data)
    (hn : isNoiseLine ℓ = true)
    (hh : matchesErrorHeader ℓ = false)
    (hmem : ℓ ∈ processedLinesOf s g) :
    ℓ ∈ splitNl (normalizeStackTrace s false g).data ∧
      ℓ ∉ splitNl (normalizeStackTrace s true g).data :=
  ⟨mem_lines_normalize_false s g hg hmem,
   not_mem_lines_normalize_true s g hg hn hh⟩

/-- C6 witness: a concrete internal-runtime frame is kept without the
flag and dropped with it. -/
theorem claim_noise_filter_witness :
    "internal/process/task.js:1".data ∈
        splitNl (normalizeStackTrace "internal/process/task.js:1" false (fun _ => "")).data ∧
      "internal/process/task.js:1".data ∉
        splitNl (normalizeStackTrace "internal/process/task.js:1" true (fun _ => "")).data :=
  claim_noise_filter "internal/process/task.js:1" (fun _ => "")
    "internal/process/task.js:1".data
    (fun _ h => by simp at h) (by decide) (by decide) (by decide)

/-- C10: a Formatter built from empty options (hence also from options
omitting filterErrorStack) has filterErrorStack = false, and with that
flag every parsed line, noise or not, is kept among the normalizer's
output lines. -/
theorem claim_default_no_filter :
    (mkFormatter {}).filterErrorStack = false ∧
      ∀ (s : String) (g : String → String) (ℓ : List Char),
        (∀ x : String, '\n' ∉ (g x).data) →
        ℓ ∈ processedLinesOf s g →
        ℓ ∈ splitNl (normalizeStackTrace s (mkFormatter {}).filterErrorStack g).data := by
  refine ⟨rfl, ?_⟩
  intro s g ℓ hg hmem
  exact mem_lines_normalize_false s g hg hmem

/-- C10 witness: the default formatter keeps a noise line. -/
theorem claim_default_no_filter_witness :
    (mkFormatter {}).filterErrorStack = false ∧
      "internal/process/task.js:2".data ∈
        splitNl (normalizeStackTrace "internal/process/task.js:2"
          (mkFormatter {}).filterErrorStack (fun _ => "")).data :=
  ⟨claim_default_no_filter.1,
   claim_default_no_filter.2 "internal/process/task.js:2" (fun _ => "")
     "internal/process/task.js:2".data (fun _ h => by simp at h) (by decide)⟩

/-- C7: the dialect is chosen by sniffing the first content line: when
it matches the bracket-call (`at `) pattern ALL lines are parsed by the
Chrome-dialect parser, otherwise ALL lines are parsed by the
Safari-dialect parser; in both dialects a line matching neither frame
pattern passes through unmodified. -/
theorem claim_dialect_selection (s : String) (g : String → String) :
    (sniffChrome (bodyLines s) = true →
      normalizeStackTrace s false g =
        String.mk ('\n' :: (headerPart s ++ joinNl (processChromeTrace (bodyLines s) g)))) ∧
    (sniffChrome (bodyLines s) = false →
      normalizeStackTrace s false g =
        String.mk ('\n' :: (headerPart s ++ joinNl (processSafariTrace (bodyLines s) g)))) ∧
    (∀ line : List Char, chromeAtBody line = none → processChromeLine g line = line) ∧
    ∀ line : List Char, safariAt line = none → safariUrl line = false →
      processSafariLine g line = line := by
  refine ⟨?_, ?_, ?_, ?_⟩
  · intro h
    simp [normalizeStackTrace, processedLinesOf, h]
  · intro h
    simp [normalizeStackTrace, processedLinesOf, h]
  · intro line h
    simp only [processChromeLine, h]
  · intro line h1 h2
    simp only [processSafariLine, h1, h2, if_neg]
    simp [h2]

/-- C7 witness: a bracket-call stack whose second line would match the
at-sign pattern is parsed entirely by the Chrome-dialect parser, and an
unmatched line passes through each parser. -/
theorem claim_dialect_selection_witness :
    (normalizeStackTrace "at a (b)\nc@d" false id =
      String.mk ('\n' :: (headerPart "at a (b)\nc@d" ++
        joinNl (processChromeTrace (bodyLines "at a (b)\nc@d") id)))) ∧
      processChromeLine id "plain text".data = "plain text".data ∧
      processSafariLine id "plain text".data = "plain text".data :=
  ⟨(claim_dialect_selection "at a (b)\nc@d" id).1 (by decide),
   (claim_dialect_selection "x" id).2.2.1 "plain text".data (by decide),
   (claim_dialect_selection "x" id).2.2.2 "plain text".data (by decide) (by decide)⟩

/-- C2 counterexample: JS `typeof null` is `"object"`, so with
`actual = null` (a primitive) and a non-primitive `expected`, the code
attempts the diff and a diff section appears, although the claim's
guard (both values non-primitive) is not met. -/
theorem claim_diff_guard_counterexample :
    specDiffGuard {message := some "m", showDiff := true, actual := .vNull, expected := .vObj 0} = false ∧
      Formatter.format {} (fun _ => "S") (fun _ _ => "h0\nh1\nh2\nh3\nh4\n-x\n+y\n")
          (fun _ => "")
          (.err {message := some "m", showDiff := true, actual := .vNull, expected := .vObj 0}) {} =
        "Error: m\n\nA x\nE y\n\nNo stack or location" ∧
      Formatter.format {} (fun _ => "S") (fun _ _ => "h0\nh1\nh2\nh3\nh4\n-x\n+y\n")
          (fun _ => "")
          (.err {message := some "m", showDiff := false, actual := .vNull, expected := .vObj 0}) {} =
        "Error: m\nNo stack or location" := by
  decide

/-- C2 (amended): the diff is attempted iff `showDiff` is truthy and
both `actual` and `expected` have JS `typeof` equal to `"object"` — a
set that contains `null` (a primitive) and excludes functions
(non-primitives).  When the guard fails the output is independent of
the serializer and the diff library; when it holds and the diff text is
nonempty, the diff block occurs in the output. -/
theorem claim_diff_guard :
    (∀ (f : Formatter) (ser ser2 : JSVal → String)
       (patch patch2 : String → String → String) (js : JSError → String)
       (e : JSError) (opts : FormatOptions),
       diffGuard e = false →
       Formatter.format f ser patch js (.err e) opts =
         Formatter.format f ser2 patch2 js (.err e) opts) ∧
    ∀ (f : Formatter) (ser : JSVal → String) (patch : String → String → String)
      (js : JSError → String) (e : JSError),
      isStructured e = true →
      diffGuard e = true →
      createDiff ser patch e.actual e.expected ≠ "" →
      containsSub ("\n\n" ++ createDiff ser patch e.actual e.expected ++ "\n").data
        (Formatter.format f ser patch js (.err e) {}).data = true := by
  constructor
  · intro f ser ser2 patch patch2 js e opts h
    have hw : ∀ (s' : JSVal → String) (p' : String → String → String) (m : String),
        withDiff s' p' e m = m := by
      intro s' p' m
      unfold withDiff
      rw [if_neg (by simp [h])]
    simp [Formatter.format, hw]
  · intro f ser patch js e hs hgd hd
    have hwd : withDiff ser patch e (composedMessage e) =
        composedMessage e ++ ("\n\n" ++ createDiff ser patch e.actual e.expected ++ "\n") := by
      unfold withDiff
      rw [if_pos hgd, if_neg (by simp [hd])]
      exact String.ext (by simp [data_append, List.append_assoc])
    obtain ⟨t2, h2⟩ := withTrailer_append f e (withDiff ser patch e (composedMessage e))
    have hformat : (Formatter.format f ser patch js (.err e) {}).data =
        (composedMessage e).data ++
          (("\n\n" ++ createDiff ser patch e.actual e.expected ++ "\n").data ++ t2.data) := by
      rw [format_structured f ser patch js e hs, h2, hwd]
      simp [data_append, List.append_assoc]
    rw [hformat]
    exact containsSub_append_left _ _ _ (containsSub_self_append _ _)

/-- C2 witness: the amended theorem evaluated on both sides of the
guard: a boolean `actual` blocks the diff, and null/object operands
with a nonempty diff produce the block in the output. -/
theorem claim_diff_guard_witness :
    (Formatter.format {} (fun _ => "a") (fun _ _ => "p") (fun _ => "")
        (.err {message := some "m", showDiff := true, actual := .vBool true, expected := .vObj 0}) {} =
      Formatter.format {} (fun _ => "b") (fun _ _ => "q") (fun _ => "")
        (.err {message := some "m", showDiff := true, actual := .vBool true, expected := .vObj 0}) {}) ∧
      containsSub ("\n\n" ++ createDiff (fun _ => "S")
          (fun _ _ => "h0\nh1\nh2\nh3\nh4\n-x\n+y\n") JSVal.vNull (.vObj 0) ++ "\n").data
        (Formatter.format {} (fun _ => "S") (fun _ _ => "h0\nh1\nh2\nh3\nh4\n-x\n+y\n")
          (fun _ => "")
          (.err {message := some "m", showDiff := true, actual := .vNull, expected := .vObj 0}) {}).data =
        true :=
  ⟨claim_diff_guard.1 {} (fun _ => "a") (fun _ => "b") (fun _ _ => "p") (fun _ _ => "q")
      (fun _ => "")
      {message := some "m", showDiff := true, actual := .vBool true, expected := .vObj 0}
      {} (by decide),
   claim_diff_guard.2 {} (fun _ => "S") (fun _ _ => "h0\nh1\nh2\nh3\nh4\n-x\n+y\n")
      (fun _ => "")
      {message := some "m", showDiff := true, actual := .vNull, expected := .vObj 0}
      (by decide) (by decide) (by decide)⟩

/-! ## Diff recoding lemmas -/

theorem mem_slice5m1 {L : List (List Char)} {l : List Char} (h : l ∈ slice5m1 L) : l ∈ L := by
  unfold slice5m1 at h
  exact List.Sublist.mem (List.Sublist.mem h (List.drop_sublist _ _)) (List.take_sublist _ _)

theorem mem_diffRawMiddle_no_nl {pt : String} {l : List Char}
    (h : l ∈ diffRawMiddle pt) : '\n' ∉ l := by
  unfold diffRawMiddle at h
  obtain ⟨a, ha, rfl⟩ := List.mem_map.mp h
  by_cases hh : isHunkHeader a = true
  · simp only [hh, if_true]
    decide
  · simp only [hh, if_false, Bool.false_eq_true]
    exact mem_splitNl_no_nl (mem_slice5m1 ha)

theorem recodeLine_no_nl {l : List Char} (h : '\n' ∉ l) : '\n' ∉ recodeLine l := by
  rw [recodeLine.eq_def]
  split
  · rename_i r
    split
    · intro hm
      exact h (List.mem_cons_of_mem _ hm)
    · intro hm
      rcases List.mem_cons.mp hm with hm | hm
      · cases hm
      rcases List.mem_cons.mp hm with hm | hm
      · cases hm
      · exact h (List.mem_cons_of_mem _ hm)
  · rename_i r
    split
    · intro hm
      exact h (List.mem_cons_of_mem _ hm)
    · intro hm
      rcases List.mem_cons.mp hm with hm | hm
      · cases hm
      rcases List.mem_cons.mp hm with hm | hm
      · cases hm
      · exact h (List.mem_cons_of_mem _ hm)
  · rename_i r h1 h2
    split
    · exact h
    · intro hm
      rcases List.mem_cons.mp hm with hm | hm
      · cases hm
      · exact h hm

/-- C5 counterexample: a content line `"+[...]"` (an added line whose
text is exactly `"[...]"`) is not recoded to `"E [...]"` as the claim
states: the indicator check fires on the content after the indicator,
and the line is emitted as a bare `"[...]"`. -/
theorem claim_diff_recode_counterexample :
    createDiff (fun _ => "") (fun _ _ => "a\nb\nc\nd\ne\n+[...]\n") (.vObj 0) (.vObj 1) =
      "[...]" ∧ ("[...]" : String) ≠ "E [...]" := by
  decide

/-- C5 (amended): after the header slice, every hunk-range marker line
is replaced by the literal `[...]`; the nonempty diff is then recoded
line by line: `'+'` becomes prefix `"E "`, `'-'` becomes `"A "`, no
indicator becomes `" "`, each followed by the line's remaining content
— except that a line whose content after the indicator is exactly
`"[...]"` is emitted as the bare marker, exactly like a replaced hunk
line. -/
theorem claim_diff_recode :
    (∀ (ser : JSVal → String) (patch : String → String → String) (a b : JSVal),
       joinNl (diffRawMiddle (patch (ser a ++ "\n") (ser b ++ "\n"))) ≠ [] →
       splitNl (createDiff ser patch a b).data =
         (diffRawMiddle (patch (ser a ++ "\n") (ser b ++ "\n"))).map recodeLine) ∧
    (∀ patchText : String,
       diffRawMiddle patchText =
         (slice5m1 (splitNl patchText.data)).map
           (fun l => if isHunkHeader l then "[...]".data else l)) ∧
    (∀ r : List Char, r ≠ "[...]".data → recodeLine ('+' :: r) = 'E' :: ' ' :: r) ∧
    (∀ r : List Char, r ≠ "[...]".data → recodeLine ('-' :: r) = 'A' :: ' ' :: r) ∧
    (∀ r : List Char, r.head? ≠ some '+' → r.head? ≠ some '-' → r ≠ "[...]".data →
       recodeLine r = ' ' :: r) ∧
    recodeLine ('+' :: "[...]".data) = "[...]".data ∧
    recodeLine ('-' :: "[...]".data) = "[...]".data ∧
    recodeLine "[...]".data = "[...]".data := by
  refine ⟨?_, fun _ => rfl, ?_, ?_, ?_, by decide, by decide, by decide⟩
  · intro ser patch a b hne
    have hmidnl : ∀ l ∈ diffRawMiddle (patch (ser a ++ "\n") (ser b ++ "\n")), '\n' ∉ l :=
      fun l hl => mem_diffRawMiddle_no_nl hl
    have hmidne : diffRawMiddle (patch (ser a ++ "\n") (ser b ++ "\n")) ≠ [] := by
      intro h
      rw [h] at hne
      exact hne rfl
    have hcd : createDiff ser patch a b =
        String.mk (joinNl ((splitNl (joinNl (diffRawMiddle
          (patch (ser a ++ "\n") (ser b ++ "\n"))))).map recodeLine)) := by
      unfold createDiff
      rw [if_neg (by simp [hne])]
    rw [hcd, mk_data, splitNl_joinNl hmidnl hmidne,
      splitNl_joinNl (fun l hl => by
        obtain ⟨x, hx, rfl⟩ := List.mem_map.mp hl
        exact recodeLine_no_nl (hmidnl x hx)) (by simp [hmidne])]
  · intro r hr
    simp [recodeLine, beq_eq_false_iff_ne.mpr hr]
  · intro r hr
    simp [recodeLine, beq_eq_false_iff_ne.mpr hr]
  · intro r h1 h2 hr
    rw [recodeLine.eq_def]
    split
    · rename_i r2
      simp at h1
    · rename_i r2
      simp at h2
    · rw [if_neg (by simp [hr])]

/-- C5 witness: the amended recoding theorem evaluated on a concrete
patch with a second hunk header and all three indicator kinds. -/
theorem claim_diff_recode_witness :
    splitNl (createDiff (fun _ => "")
        (fun _ _ => "h0\nh1\nh2\nh3\nh4\n@@ -1 +1 @@\n-x\n+y\n ctx\n")
        (.vObj 0) (.vObj 1)).data =
      (diffRawMiddle "h0\nh1\nh2\nh3\nh4\n@@ -1 +1 @@\n-x\n+y\n ctx\n").map recodeLine ∧
      recodeLine ('+' :: "new".data) = 'E' :: ' ' :: "new".data :=
  ⟨claim_diff_recode.1 (fun _ => "")
      (fun _ _ => "h0\nh1\nh2\nh3\nh4\n@@ -1 +1 @@\n-x\n+y\n ctx\n")
      (.vObj 0) (.vObj 1) (by decide),
   claim_diff_recode.2.2.1 "new".data (by decide)⟩

/-! ## Record-update projections and deduplication helpers -/

theorem withStack_stack (e : JSError) (s : Option String) :
    ({e with stack := s} : JSError).stack = s := rfl

theorem composedMessage_withStack (e : JSError) (s : Option String) :
    composedMessage {e with stack := s} = composedMessage e := rfl

theorem rawMessage_withStack (e : JSError) (s : Option String) :
    rawMessage {e with stack := s} = rawMessage e := rfl

theorem locationFallback_withStack (e : JSError) (s : Option String) (m : String) :
    locationFallback {e with stack := s} m = locationFallback e m := rfl

theorem withDiff_withStack (ser : JSVal → String) (patch : String → String → String)
    (e : JSError) (s : Option String) (m : String) :
    withDiff ser patch {e with stack := s} m = withDiff ser patch e m := rfl

theorem isStructured_withStack (e : JSError) (s : Option String) :
    isStructured {e with stack := s} = (truthyS e.message || truthyS s) := rfl

theorem withTrailer_withStack (f : Formatter) (e : JSError) (rest : String) (m : String)
    (h : processedStack f e = processedStack f {e with stack := some rest}) :
    withTrailer f e m = withTrailer f {e with stack := some rest} m := by
  unfold withTrailer
  rw [h]
  simp only [locationFallback_withStack]

theorem normalize_empty (fl : Bool) (g : String → String) :
    normalizeStackTrace "" fl g = "\n" := by
  have hb : bodyLines "" = [] := by decide
  have hh : headerPart "" = [] := by decide
  unfold normalizeStackTrace processedLinesOf
  rw [hb, hh]
  cases fl <;>
    simp [processChromeTrace, processSafariTrace, joinNl, List.intercalate]

theorem rawMessage_data_ne_nil {e : JSError} (hm : truthyS e.message = true) :
    (rawMessage e).data ≠ [] := by
  cases hmsg : e.message with
  | none => rw [hmsg] at hm; simp [truthyS] at hm
  | some m =>
    rw [hmsg] at hm
    simp [truthyS] at hm
    unfold rawMessage
    rw [hmsg]
    intro hc
    exact hm (String.ext hc)

theorem strippedStack_header (e : JSError) (rest : String) :
    strippedStack e (composedMessage e ++ rest) = rest := by
  unfold strippedStack
  rw [if_pos (by rw [data_append]; exact isPrefixOf_append_self _ _)]
  rw [data_append, List.drop_left]

theorem strippedStack_raw (e : JSError) (rest : String)
    (h0 : (composedMessage e).data.isPrefixOf (rawMessage e ++ rest).data = false) :
    strippedStack e (rawMessage e ++ rest) = rest := by
  unfold strippedStack
  rw [if_neg (by simp only [h0]; simp),
    if_pos (by rw [data_append]; exact isPrefixOf_append_self _ _)]
  rw [data_append, List.drop_left]

theorem append_ne_empty_left {a b : String} (ha : a.data ≠ []) : (a ++ b == "") = false := by
  refine beq_eq_false_iff_ne.mpr fun hcon => ?_
  have hd := congrArg String.data hcon
  rw [data_append] at hd
  exact ha (List.append_eq_nil.mp hd).1

theorem processedStack_noStrip (f : Formatter) (e : JSError) (rest : String)
    (hrest : rest ≠ "")
    (h1 : (composedMessage e).data.isPrefixOf rest.data = false)
    (h2 : (rawMessage e).data.isPrefixOf rest.data = false) :
    processedStack f {e with stack := some rest} =
      some (normalizeStackTrace rest f.filterErrorStack id) := by
  unfold processedStack
  simp only [withStack_stack]
  rw [if_neg (by simp [beq_eq_false_iff_ne.mpr hrest])]
  have hss : strippedStack {e with stack := some rest} rest = rest := by
    unfold strippedStack
    rw [composedMessage_withStack, rawMessage_withStack, if_neg (by simp only [h1]; simp),
      if_neg (by simp only [h2]; simp)]
  rw [hss]

theorem processedStack_empty_stack (f : Formatter) (e : JSError) :
    processedStack f {e with stack := some ""} = none := by
  unfold processedStack
  simp only [withStack_stack]
  rw [if_pos (by rfl)]

theorem processedStack_header (f : Formatter) (e : JSError) (rest : String)
    (hstack : e.stack = some (composedMessage e ++ rest)) :
    processedStack f e = some (normalizeStackTrace rest f.filterErrorStack id) := by
  simp only [processedStack, hstack]
  rw [if_neg (by simp [append_ne_empty_left (composedMessage_ne_nil e)])]
  rw [strippedStack_header]

theorem processedStack_rawp (f : Formatter) (e : JSError) (rest : String)
    (hm : truthyS e.message = true)
    (hstack : e.stack = some (rawMessage e ++ rest))
    (h0 : (composedMessage e).data.isPrefixOf (rawMessage e ++ rest).data = false) :
    processedStack f e = some (normalizeStackTrace rest f.filterErrorStack id) := by
  simp only [processedStack, hstack]
  rw [if_neg (by simp [append_ne_empty_left (rawMessage_data_ne_nil hm)])]
  rw [strippedStack_raw e rest h0]

theorem format_stack_congr (f : Formatter) (ser : JSVal → String)
    (patch : String → String → String) (js : JSError → String) (e : JSError) (rest : String)
    (hm : truthyS e.message = true)
    (hps : processedStack f e = processedStack f {e with stack := some rest}) :
    Formatter.format f ser patch js (.err e) {} =
      Formatter.format f ser patch js (.err {e with stack := some rest}) {} := by
  have hs : isStructured e = true := by simp [isStructured, hm]
  have hs' : isStructured {e with stack := some rest} = true := by
    rw [isStructured_withStack]; simp [hm]
  rw [format_structured f ser patch js e hs, format_structured f ser patch js _ hs']
  rw [withDiff_withStack, composedMessage_withStack]
  exact withTrailer_withStack f e rest _ hps

theorem format_stack_strip_empty (f : Formatter) (ser : JSVal → String)
    (patch : String → String → String) (js : JSError → String) (e : JSError)
    (hm : truthyS e.message = true)
    (hps : processedStack f e = some "\n") :
    Formatter.format f ser patch js (.err e) {} =
      Formatter.format f ser patch js (.err {e with stack := some ""}) {} := by
  have hs : isStructured e = true := by simp [isStructured, hm]
  have hs' : isStructured {e with stack := some ""} = true := by
    rw [isStructured_withStack]; simp [hm]
  rw [format_structured f ser patch js e hs, format_structured f ser patch js _ hs']
  simp only [withDiff_withStack, composedMessage_withStack]
  have h1 : withTrailer f e (withDiff ser patch e (composedMessage e)) =
      locationFallback e (withDiff ser patch e (composedMessage e)) := by
    simp only [withTrailer, hps]
    rw [if_neg (by decide)]
  have h2 : withTrailer f {e with stack := some ""}
      (withDiff ser patch e (composedMessage e)) =
      locationFallback e (withDiff ser patch e (composedMessage e)) := by
    simp only [withTrailer, processedStack_empty_stack]
    exact locationFallback_withStack e (some "") _
  rw [h1, h2]

/-- C1 counterexample: when the stack after the stripped header still
contains the composed header (here the stack repeats it on its second
line), the returned message contains the header text twice, refuting
the claim's "exactly once". -/
theorem claim_dedup_counterexample :
    composedMessage {message := some "x", stack := some "Error: x\nError: x"} = "Error: x" ∧
      "Error: x".data.isPrefixOf ("Error: x\nError: x" : String).data = true ∧
      Formatter.format {} (fun _ => "") (fun _ _ => "") (fun _ => "")
          (.err {message := some "x", stack := some "Error: x\nError: x"}) {} =
        "Error: x\nError: x" ∧
      countOccs "Error: x".data
        (Formatter.format {} (fun _ => "") (fun _ _ => "") (fun _ => "")
          (.err {message := some "x", stack := some "Error: x\nError: x"}) {}).data = 2 := by
  decide

/-- C1 (amended): when the raw stack begins with the composed header,
exactly that prefix is stripped before normalization — formatting the
error is the same as formatting it with the prefix already removed
(provided the remainder does not itself begin with the header or the
raw message, which would trigger a second strip); likewise exactly the
raw message's length is stripped when only the message prefixes the
stack; and the returned message contains the header exactly once
provided the header does not reoccur after the first character of the
output. -/
theorem claim_dedup :
    (∀ (f : Formatter) (ser : JSVal → String) (patch : String → String → String)
       (js : JSError → String) (e : JSError) (rest : String),
       truthyS e.message = true →
       e.stack = some (composedMessage e ++ rest) →
       (composedMessage e).data.isPrefixOf rest.data = false →
       (rawMessage e).data.isPrefixOf rest.data = false →
       Formatter.format f ser patch js (.err e) {} =
         Formatter.format f ser patch js (.err {e with stack := some rest}) {}) ∧
    (∀ (f : Formatter) (ser : JSVal → String) (patch : String → String → String)
       (js : JSError → String) (e : JSError) (rest : String),
       truthyS e.message = true →
       e.stack = some (rawMessage e ++ rest) →
       (composedMessage e).data.isPrefixOf (rawMessage e ++ rest).data = false →
       (composedMessage e).data.isPrefixOf rest.data = false →
       (rawMessage e).data.isPrefixOf rest.data = false →
       Formatter.format f ser patch js (.err e) {} =
         Formatter.format f ser patch js (.err {e with stack := some rest}) {}) ∧
    ∀ (f : Formatter) (ser : JSVal → String) (patch : String → String → String)
      (js : JSError → String) (e : JSError) (s : String),
      truthyS e.message = true →
      e.stack = some s →
      (composedMessage e).data.isPrefixOf s.data = true →
      countOccs (composedMessage e).data
        ((Formatter.format f ser patch js (.err e) {}).data.drop 1) = 0 →
      countOccs (composedMessage e).data
        (Formatter.format f ser patch js (.err e) {}).data = 1 := by
  refine ⟨?_, ?_, ?_⟩
  · intro f ser patch js e rest hm hstack h1 h2
    by_cases hrest : rest = ""
    · subst hrest
      exact format_stack_strip_empty f ser patch js e hm
        (by rw [processedStack_header f e "" hstack, normalize_empty])
    · exact format_stack_congr f ser patch js e rest hm
        (by rw [processedStack_header f e rest hstack,
             processedStack_noStrip f e rest hrest h1 h2])
  · intro f ser patch js e rest hm hstack h0 h1 h2
    by_cases hrest : rest = ""
    · subst hrest
      exact format_stack_strip_empty f ser patch js e hm
        (by rw [processedStack_rawp f e "" hm hstack h0, normalize_empty])
    · exact format_stack_congr f ser patch js e rest hm
        (by rw [processedStack_rawp f e rest hm hstack h0,
             processedStack_noStrip f e rest hrest h1 h2])
  · intro f ser patch js e s hm hstack hpre hcount
    have hs : isStructured e = true := by simp [isStructured, hm]
    obtain ⟨t, ht⟩ := format_eq_composed_append f ser patch js e hs
    have hpre2 : (composedMessage e).data.isPrefixOf
        (Formatter.format f ser patch js (.err e) {}).data = true := by
      rw [ht, data_append]
      exact isPrefixOf_append_self _ _
    rw [countOccs_succ_of_head (composedMessage_ne_nil e) hpre2, hcount]

/-- C1 witness: the amended theorem evaluated at concrete errors for
the header-prefix strip, the raw-message-prefix strip, and the
exactly-once count. -/
theorem claim_dedup_witness :
    (Formatter.format {} (fun _ => "") (fun _ _ => "") (fun _ => "")
        (.err {message := some "x", stack := some "Error: x\nfoo@bar"}) {} =
      Formatter.format {} (fun _ => "") (fun _ _ => "") (fun _ => "")
        (.err {message := some "x", stack := some "\nfoo@bar"}) {}) ∧
    (Formatter.format {} (fun _ => "") (fun _ _ => "") (fun _ => "")
        (.err {message := some "x", stack := some "x\nbaz@qux"}) {} =
      Formatter.format {} (fun _ => "") (fun _ _ => "") (fun _ => "")
        (.err {message := some "x", stack := some "\nbaz@qux"}) {}) ∧
    countOccs "Error: x".data
      (Formatter.format {} (fun _ => "") (fun _ _ => "") (fun _ => "")
        (.err {message := some "x", stack := some "Error: x\nfoo@bar"}) {}).data = 1 :=
  ⟨claim_dedup.1 {} (fun _ => "") (fun _ _ => "") (fun _ => "")
      {message := some "x", stack := some "Error: x\nfoo@bar"} "\nfoo@bar"
      (by decide) (by decide) (by decide) (by decide),
   claim_dedup.2.1 {} (fun _ => "") (fun _ _ => "") (fun _ => "")
      {message := some "x", stack := some "x\nbaz@qux"} "\nbaz@qux"
      (by decide) (by decide) (by decide) (by decide) (by decide),
   claim_dedup.2.2 {} (fun _ => "") (fun _ _ => "") (fun _ => "")
      {message := some "x", stack := some "Error: x\nfoo@bar"} "Error: x\nfoo@bar"
      (by decide) (by decide) (by decide) (by decide)⟩

/-! ## Shapes with source tracking, and identity resolution -/

theorem chromeLine_shape_src (g : String → String) (l : List Char) :
    processChromeLine g l = l ∨
      (∃ src : List Char, (∀ c ∈ src, c ∈ l) ∧
        processChromeLine g l = (formatLine none (String.mk src) g).data) ∨
      (∃ f src : List Char, (∀ c ∈ f, c ∈ l) ∧ (∀ c ∈ src, c ∈ l) ∧
        processChromeLine g l = (formatLine (some (String.mk f)) (String.mk src) g).data) := by
  cases hab : chromeAtBody l with
  | none => exact Or.inl (by simp only [processChromeLine, hab])
  | some body =>
    have hbody : ∀ c ∈ body, c ∈ l := by
      intro c hc
      unfold chromeAtBody at hab
      by_cases hat : "at ".data.isPrefixOf (l.dropWhile isWsChar) = true
      · rw [if_pos hat] at hab
        injection hab with hab
        subst hab
        exact List.Sublist.mem
          (List.Sublist.mem hc (List.drop_sublist _ _)) (List.dropWhile_sublist _)
      · rw [if_neg hat] at hab; cases hab
    cases hp : chromeParen body with
    | some fs =>
      obtain ⟨f, src⟩ := fs
      have hsubs : (∀ c ∈ f, c ∈ body) ∧ ∀ c ∈ src, c ∈ body := by
        unfold chromeParen at hp
        cases body with
        | nil => cases hp
        | cons b bs =>
          obtain ⟨h1, h2⟩ := chromeLazy_subset bs [b] f src hp
          constructor
          · intro c hc
            rcases h1 c hc with hc' | hc'
            · rw [List.mem_singleton] at hc'
              rw [hc']
              exact List.mem_cons_self _ _
            · exact List.mem_cons_of_mem _ hc'
          · intro c hc
            exact List.mem_cons_of_mem _ (h2 c hc)
      exact Or.inr (Or.inr ⟨f, src, fun c hc => hbody c (hsubs.1 c hc),
        fun c hc => hbody c (hsubs.2 c hc), by simp only [processChromeLine, hab, hp]⟩)
    | none =>
      exact Or.inr (Or.inl ⟨body, hbody, by simp only [processChromeLine, hab, hp]⟩)

theorem safariLine_shape_src (g : String → String) (l : List Char) :
    processSafariLine g l = l ∨
      (∃ src : List Char, (∀ c ∈ src, c ∈ l) ∧
        processSafariLine g l = (formatLine none (String.mk src) g).data) ∨
      (∃ f src : List Char, (∀ c ∈ f, c ∈ l) ∧ (∀ c ∈ src, c ∈ l) ∧
        processSafariLine g l = (formatLine (some (String.mk f)) (String.mk src) g).data) := by
  cases ha : safariAt l with
  | some fs =>
    obtain ⟨f, src⟩ := fs
    have hsubs : (∀ c ∈ f, c ∈ l) ∧ ∀ c ∈ src, c ∈ l := by
      unfold safariAt at ha
      by_cases hcnd : l.takeWhile (fun c => !(c == '@')) ≠ [] ∧
          (l.takeWhile (fun c => !(c == '@'))).length < l.length
      · rw [if_pos hcnd] at ha
        injection ha with ha
        have hfe : f = l.takeWhile (fun c => !(c == '@')) := (congrArg Prod.fst ha).symm
        have hse : src = l.drop ((l.takeWhile (fun c => !(c == '@'))).length + 1) :=
          (congrArg Prod.snd ha).symm
        constructor
        · intro c hc
          exact List.Sublist.mem (hfe ▸ hc) (List.takeWhile_sublist _)
        · intro c hc
          exact List.Sublist.mem (hse ▸ hc) (List.drop_sublist _ _)
      · rw [if_neg hcnd] at ha; cases ha
    exact Or.inr (Or.inr ⟨f, src, hsubs.1, hsubs.2, by simp only [processSafariLine, ha]⟩)
  | none =>
    by_cases hu : safariUrl l = true
    · exact Or.inr (Or.inl ⟨l, fun c hc => hc, by simp only [processSafariLine, ha, if_pos hu]⟩)
    · exact Or.inl (by simp only [processSafariLine, ha, if_neg hu])

theorem goodLine_chrome_id {l : List Char} (h : goodLine l) :
    goodLine (processChromeLine id l) := by
  rcases chromeLine_shape_src id l with h' | ⟨src, hsub, h'⟩ | ⟨f, src, hfsub, hssub, h'⟩
  · rw [h']; exact h
  · rw [h']
    exact goodLine_format_anon (String.mk src) id (fun hm => h.1 (hsub _ hm))
  · rw [h']
    exact goodLine_format_some (String.mk src) id (fun hm => h.1 (hssub _ hm))
      (fun hm => h.1 (hfsub _ hm))

theorem goodLine_safari_id {l : List Char} (h : goodLine l) :
    goodLine (processSafariLine id l) := by
  rcases safariLine_shape_src id l with h' | ⟨src, hsub, h'⟩ | ⟨f, src, hfsub, hssub, h'⟩
  · rw [h']; exact h
  · rw [h']
    exact goodLine_format_anon (String.mk src) id (fun hm => h.1 (hsub _ hm))
  · rw [h']
    exact goodLine_format_some (String.mk src) id (fun hm => h.1 (hssub _ hm))
      (fun hm => h.1 (hfsub _ hm))

theorem processedLinesOf_good_id (s : String)
    (hb : ∀ l ∈ bodyLines s, goodLine l) :
    ∀ l ∈ processedLinesOf s id, goodLine l := by
  intro l hl
  unfold processedLinesOf at hl
  by_cases hsn : sniffChrome (bodyLines s) = true
  · rw [if_pos hsn] at hl
    unfold processChromeTrace at hl
    obtain ⟨a, ha, rfl⟩ := List.mem_map.mp hl
    exact goodLine_chrome_id (hb a ha)
  · rw [if_neg hsn] at hl
    unfold processSafariTrace at hl
    obtain ⟨a, ha, rfl⟩ := List.mem_map.mp hl
    exact goodLine_safari_id (hb a ha)

theorem processedLinesOf_length (s : String) (g : String → String) :
    (processedLinesOf s g).length = (bodyLines s).length := by
  unfold processedLinesOf processChromeTrace processSafariTrace
  by_cases hsn : sniffChrome (bodyLines s) = true <;> simp [hsn]

/-! ## Second normalization: frame count -/

theorem goodLine_ne_nil {l : List Char} (h : goodLine l) : l ≠ [] := by
  intro he
  rw [he] at h
  simpa [isBlankLine] using h.2.1

theorem joinNl_ne_nil : ∀ {P : List (List Char)}, P ≠ [] → (∀ p ∈ P, p ≠ []) →
    joinNl P ≠ [] := by
  intro P hP hne
  match P, hP with
  | [p], _ =>
    rw [joinNl_single]
    exact hne p (by simp)
  | p :: q :: t, _ =>
    rw [joinNl_cons2]
    simp

theorem joinNl_getLast_mem : ∀ (P : List (List Char)), P ≠ [] → (∀ p ∈ P, p ≠ []) →
    ∃ q, q ∈ P ∧ (joinNl P).getLast? = q.getLast? := by
  intro P
  induction P with
  | nil => intro h _; exact absurd rfl h
  | cons p t ih =>
    intro _ hne
    cases t with
    | nil => exact ⟨p, by simp, by rw [joinNl_single]⟩
    | cons q u =>
      obtain ⟨r, hr, he⟩ := ih (by simp) (fun x hx => hne x (List.mem_cons_of_mem _ hx))
      refine ⟨r, List.mem_cons_of_mem _ hr, ?_⟩
      rw [joinNl_cons2, List.getLast?_append_cons]
      have hXne : joinNl (q :: u) ≠ [] :=
        joinNl_ne_nil (by simp) (fun x hx => hne x (List.mem_cons_of_mem _ hx))
      cases hX : joinNl (q :: u) with
      | nil => exact absurd hX hXne
      | cons x xs => rw [List.getLast?_cons_cons, ← hX, he]

theorem headerPart_eq_nil {s : String}
    (h0 : dropTrailingWs s.data = s.data)
    (h1 : matchesErrorHeader ((splitNl s.data).headD []) = false) :
    headerPart s = [] := by
  unfold headerPart rawLines
  rw [h0, if_neg (by simp only [h1]; simp)]

theorem bodyLines_eq {s : String}
    (h0 : dropTrailingWs s.data = s.data)
    (h1 : matchesErrorHeader ((splitNl s.data).headD []) = false)
    (hblank : ∀ l ∈ splitNl s.data, isBlankLine l = false) :
    bodyLines s = splitNl s.data := by
  unfold bodyLines rawLines
  rw [h0, if_neg (by simp only [h1]; simp)]
  cases hsp : splitNl s.data with
  | nil => exact absurd hsp (splitNl_ne_nil _)
  | cons a t =>
    refine List.dropWhile_cons_of_neg ?_
    have := hblank a (by rw [hsp]; simp)
    simp [this]

theorem normalize_data_no_header {s : String}
    (h0 : dropTrailingWs s.data = s.data)
    (h1 : matchesErrorHeader ((splitNl s.data).headD []) = false) :
    (normalizeStackTrace s false id).data = '\n' :: joinNl (processedLinesOf s id) := by
  rw [normalize_data]
  simp [headerPart_eq_nil h0 h1]

/-- C4 counterexample: normalizing an already-normalized Safari stack a
second time re-parses the formatted frame line with the bracket-call
dialect and wraps it again: "  at foo  <bar>" becomes
"  at <foo  <bar>>", so frame content is not preserved. -/
theorem claim_normalize_idempotent_counterexample :
    normalizeStackTrace "foo@bar" false id = "\n  at foo  <bar>" ∧
      normalizeStackTrace (normalizeStackTrace "foo@bar" false id) false id =
        "\n  at <foo  <bar>>" ∧
      (splitNl (normalizeStackTrace (normalizeStackTrace "foo@bar" false id) false id).data).dropWhile
          isBlankLine ≠
        (splitNl (normalizeStackTrace "foo@bar" false id).data).dropWhile isBlankLine := by
  decide

/-- C4 (amended): for an already-normalized stack (no error-name header
line, no blank lines, every line ending in a non-whitespace character),
normalizing the normalizer's own output again yields the same number of
lines (the frame count is preserved, modulo the synthetic leading
newline both outputs share), but not the same frame content, since a
formatted "  at X" line is re-parsed as an anonymous bracket-call frame
"  at <X>". -/
theorem claim_normalize_idempotent (s : String)
    (h0 : dropTrailingWs s.data = s.data)
    (h1 : matchesErrorHeader ((splitNl s.data).headD []) = false)
    (h2 : ∀ l ∈ splitNl s.data, goodLine l) :
    (splitNl (normalizeStackTrace (normalizeStackTrace s false id) false id).data).length =
      (splitNl (normalizeStackTrace s false id).data).length := by
  have hblank : ∀ l ∈ splitNl s.data, isBlankLine l = false := fun l hl => (h2 l hl).2.1
  have hbody : bodyLines s = splitNl s.data := bodyLines_eq h0 h1 hblank
  have hPgood : ∀ l ∈ processedLinesOf s id, goodLine l :=
    processedLinesOf_good_id s (by rw [hbody]; exact h2)
  have hPne : processedLinesOf s id ≠ [] := by
    intro hc
    have hlen := processedLinesOf_length s id
    rw [hc, hbody] at hlen
    exact splitNl_ne_nil s.data (List.length_eq_zero.mp hlen.symm)
  have hPnl : ∀ l ∈ processedLinesOf s id, '\n' ∉ l := fun l hl => (hPgood l hl).1
  have hPnn : ∀ l ∈ processedLinesOf s id, l ≠ [] := fun l hl => goodLine_ne_nil (hPgood l hl)
  have hout1 : (normalizeStackTrace s false id).data =
      '\n' :: joinNl (processedLinesOf s id) := normalize_data_no_header h0 h1
  have hlines1 : splitNl (normalizeStackTrace s false id).data =
      [] :: processedLinesOf s id := by
    rw [hout1, splitNl_cons_nl, splitNl_joinNl hPnl hPne]
  have hlast : ∀ c, (normalizeStackTrace s false id).data.getLast? = some c →
      isWsChar c = false := by
    obtain ⟨q, hq, he⟩ := joinNl_getLast_mem (processedLinesOf s id) hPne hPnn
    intro c hc
    rw [hout1] at hc
    have hjne : joinNl (processedLinesOf s id) ≠ [] := joinNl_ne_nil hPne hPnn
    cases hX : joinNl (processedLinesOf s id) with
    | nil => exact absurd hX hjne
    | cons x xs =>
      rw [hX, List.getLast?_cons_cons, ← hX, he] at hc
      exact (hPgood q hq).2.2 c hc
  have h0' : dropTrailingWs (normalizeStackTrace s false id).data =
      (normalizeStackTrace s false id).data := dropTrailingWs_eq_self hlast
  have hraw1 : rawLines (normalizeStackTrace s false id) = [] :: processedLinesOf s id := by
    unfold rawLines
    rw [h0']
    exact hlines1
  have h1' : matchesErrorHeader
      ((splitNl (normalizeStackTrace s false id).data).headD []) = false := by
    rw [hlines1]
    exact matchesErrorHeader_nil
  have hbody1 : bodyLines (normalizeStackTrace s false id) = processedLinesOf s id := by
    unfold bodyLines
    rw [hraw1]
    rw [if_neg (by simp [matchesErrorHeader_nil])]
    rw [List.dropWhile_cons_of_pos (by rfl)]
    cases hP : processedLinesOf s id with
    | nil => exact absurd hP hPne
    | cons a t =>
      refine List.dropWhile_cons_of_neg ?_
      have := (hPgood a (by rw [hP]; simp)).2.1
      simp [this]
  have hP2good : ∀ l ∈ processedLinesOf (normalizeStackTrace s false id) id, goodLine l :=
    processedLinesOf_good_id _ (by rw [hbody1]; exact hPgood)
  have hP2len : (processedLinesOf (normalizeStackTrace s false id) id).length =
      (processedLinesOf s id).length := by
    rw [processedLinesOf_length, hbody1]
  have hP2ne : processedLinesOf (normalizeStackTrace s false id) id ≠ [] := by
    intro hc
    rw [hc] at hP2len
    exact hPne (List.length_eq_zero.mp hP2len.symm)
  have hlines2 : splitNl (normalizeStackTrace (normalizeStackTrace s false id) false id).data =
      [] :: processedLinesOf (normalizeStackTrace s false id) id := by
    rw [normalize_data_no_header h0' h1', splitNl_cons_nl,
      splitNl_joinNl (fun l hl => (hP2good l hl).1) hP2ne]
  rw [hlines1, hlines2]
  simp [hP2len]

/-- C4 witness: the amended count theorem evaluated on a concrete
one-frame Safari stack. -/
theorem claim_normalize_idempotent_witness :
    (splitNl (normalizeStackTrace (normalizeStackTrace "foo@bar" false id) false id).data).length =
      (splitNl (normalizeStackTrace "foo@bar" false id).data).length :=
  claim_normalize_idempotent "foo@bar" (by decide) (by decide)
    (by
      intro l hl
      have hsp : splitNl ("foo@bar" : String).data = ["foo@bar".data] := by decide
      rw [hsp, List.mem_singleton] at hl
      subst hl
      refine ⟨by decide, by decide, ?_⟩
      intro c hc
      have hg : ("foo@bar".data : List Char).getLast? = some 'r' := by decide
      rw [hg] at hc
      injection hc with hc
      rw [← hc]
      decide)
